import Mathlib

/-!
Verification of the AutheticatorBackend repository (an Express/Node MFA code
generator).  The repository ships several server variants:

* `src/server-backup.js` (first document): an in-memory server whose
  `generateOTP` handles both TOTP and HOTP and increments the HOTP counter.
* `src/server.js` (first document): the MongoDB-backed server whose
  `GET /api/code/:accountKey` route always computes a TOTP token.
* `src/models/Account.js`: the mongoose schema with parameter constraints.

This file shallowly embeds the string manipulation, the AES-256-CBC envelope
layout, the account-store operations, the OTP issuance routines and the
`otpauth://` URI parser of those sources.  External library primitives
(the AES block permutation, SHA-256, speakeasy's token computation, the
base32 validity check performed by speakeasy) are modelled as explicit
function parameters; everything the repository's own code does (hex
encoding, the `iv:ciphertext` envelope, CBC chaining with PKCS#7 padding as
specified by the `aes-256-cbc` algorithm identifier, splitting, query
parsing, store updates) is embedded concretely.
-/

namespace AuthBackend

/-! ### JavaScript string helpers -/

/-- Model of JavaScript `String.prototype.split(sep)` for a one-character
separator: splits into the (always non-empty) list of separator-free
segments. -/
def jsSplit (sep : Char) : List Char → List (List Char)
  | [] => [[]]
  | c :: rest =>
    if c = sep then [] :: jsSplit sep rest
    else
      match jsSplit sep rest with
      | [] => [[c]]
      | h :: t => (c :: h) :: t

/-- Model of JavaScript `Array.prototype.join(sep)` for a one-character
separator. -/
def joinWith (sep : Char) : List (List Char) → List Char
  | [] => []
  | [x] => x
  | x :: xs => x ++ sep :: joinWith sep xs

/-- Model of `String.prototype.toLowerCase` (ASCII range). -/
def jsToLower (s : List Char) : List Char := s.map Char.toLower

/-- `normalizeBase32` from `src/server-backup.js` lines 30-32:
`secret.replace(/\s+/g, '').toUpperCase()` — drop all whitespace and
upper-case. -/
def normalizeBase32 (s : List Char) : List Char :=
  (s.filter (fun c => ¬ c.isWhitespace)).map Char.toUpper

/-! ### Hex encoding (Node `Buffer` `'hex'` codec) -/

/-- Lower-case hex digit for a value below 16, as produced by
`Buffer.prototype.toString('hex')`. -/
def hexChar (n : Nat) : Char :=
  if n < 10 then Char.ofNat (48 + n) else Char.ofNat (87 + n)

/-- Value of a hex digit accepted by `Buffer.from(·, 'hex')` (both cases). -/
def hexVal (c : Char) : Option Nat :=
  if 48 ≤ c.toNat ∧ c.toNat ≤ 57 then some (c.toNat - 48)
  else if 97 ≤ c.toNat ∧ c.toNat ≤ 102 then some (c.toNat - 87)
  else if 65 ≤ c.toNat ∧ c.toNat ≤ 70 then some (c.toNat - 55)
  else none

/-- `Buffer.prototype.toString('hex')`: two lower-case digits per byte. -/
def bytesToHex : List Nat → List Char
  | [] => []
  | b :: bs => hexChar (b / 16) :: hexChar (b % 16) :: bytesToHex bs

/-- `Buffer.from(s, 'hex')`: decodes pairs of hex digits and silently stops
at the first character pair that is not valid hex (Node truncates instead of
throwing). -/
def hexToBytes : List Char → List Nat
  | c1 :: c2 :: rest =>
    match hexVal c1, hexVal c2 with
    | some h, some l => (16 * h + l) :: hexToBytes rest
    | _, _ => []
  | _ => []

/-! ### The `aes-256-cbc` cipher layer

`encrypt`/`decrypt` in `src/server.js` lines 26-42 (and the equivalent pair
in `src/server-backup.js` lines 34-59) call Node's
`crypto.createCipheriv('aes-256-cbc', key, iv)`.  That algorithm identifier
means: CBC block chaining over the AES-256 block permutation with PKCS#7
padding, the padding being checked on decryption.  The AES block permutation
itself is external library code, so it is a parameter here (`E` for the
encryption direction, `D` for the decryption direction, each with the
32-byte key already fixed); the chaining, padding, hex encoding and the
`iv:ciphertext` envelope layout are embedded concretely. -/

/-- Byte-wise XOR of two equal-length byte strings (CBC chaining step). -/
def xorBytes : List Nat → List Nat → List Nat
  | [], _ => []
  | _, [] => []
  | a :: as, b :: bs => (a ^^^ b) :: xorBytes as bs

/-- PKCS#7 pad length for a message of length `n`: always in `[1, 16]`. -/
def padLen (n : Nat) : Nat := 16 - n % 16

/-- PKCS#7 padding to a whole number of 16-byte blocks. -/
def pkcs7pad (bs : List Nat) : List Nat :=
  bs ++ List.replicate (padLen bs.length) (padLen bs.length)

/-- PKCS#7 unpadding with the full check OpenSSL performs in
`EVP_DecryptFinal`: the last byte `p` must satisfy `1 ≤ p ≤ 16`, and the
last `p` bytes must all equal `p`; otherwise decryption fails
("bad decrypt"). -/
def pkcs7unpad (bs : List Nat) : Option (List Nat) :=
  match bs.getLast? with
  | none => none
  | some p =>
    if 1 ≤ p ∧ p ≤ 16 ∧ p ≤ bs.length ∧ (bs.drop (bs.length - p)).all (· = p)
    then some (bs.take (bs.length - p))
    else none

/-- Fuel-driven worker for `chunks16` (structural recursion on the fuel so
that the definition evaluates by `decide`/`rfl`). -/
def chunks16Aux : Nat → List Nat → List (List Nat)
  | 0, _ => []
  | _, [] => []
  | fuel + 1, b :: bs => ((b :: bs).take 16) :: chunks16Aux fuel (bs.drop 15)

/-- Split a byte string into consecutive 16-byte blocks. -/
def chunks16 (bs : List Nat) : List (List Nat) := chunks16Aux bs.length bs

/-- CBC encryption over a list of plaintext blocks: each block is XORed with
the previous ciphertext block (initially the IV) before the block
permutation `E` is applied. -/
def cbcEnc (E : List Nat → List Nat) (prev : List Nat) :
    List (List Nat) → List (List Nat)
  | [] => []
  | b :: bs =>
    let c := E (xorBytes b prev)
    c :: cbcEnc E c bs

/-- CBC decryption over a list of ciphertext blocks. -/
def cbcDec (D : List Nat → List Nat) (prev : List Nat) :
    List (List Nat) → List (List Nat)
  | [] => []
  | c :: cs => xorBytes (D c) prev :: cbcDec D c cs

/-- `encrypt` from `src/server.js` lines 26-32 / `src/server-backup.js`
lines 34-46: CBC-encrypt the UTF-8 bytes of the plaintext under a freshly
drawn 16-byte IV and return `iv.toString('hex') + ':' +
encrypted.toString('hex')`.  The random IV draw (`crypto.randomBytes(16)`)
is an effect, so the IV is an explicit argument; `E` is the keyed AES-256
block permutation. -/
def encryptEnvelope (E : List Nat → List Nat) (iv text : List Nat) : List Char :=
  bytesToHex iv ++ ':' :: bytesToHex (List.flatten (cbcEnc E iv (chunks16 (pkcs7pad text))))

/-- Core of both decrypt variants once the IV and ciphertext segments are
known: `createDecipheriv` rejects an IV that is not 16 bytes, then CBC
decryption rejects a ciphertext that is empty or not a whole number of
blocks ("wrong final block length") and finally checks the PKCS#7 padding
("bad decrypt").  `D` is the keyed inverse AES-256 block permutation. -/
def decryptCore (D : List Nat → List Nat) (iv ct : List Nat) : Option (List Nat) :=
  if iv.length ≠ 16 then none
  else if ct.length = 0 ∨ ct.length % 16 ≠ 0 then none
  else pkcs7unpad (List.flatten (cbcDec D iv (chunks16 ct)))

/-- `decrypt` from `src/server.js` lines 34-42: `const parts =
text.split(':'); const iv = Buffer.from(parts.shift(), 'hex'); const
encryptedText = Buffer.from(parts.join(':'), 'hex'); ...`. -/
def decryptMongo (D : List Nat → List Nat) (s : List Char) : Option (List Nat) :=
  let parts := jsSplit ':' s
  decryptCore D (hexToBytes (parts.headD [])) (hexToBytes (joinWith ':' parts.tail))

/-- `decrypt` from `src/server-backup.js` lines 48-59: `const [ivHex,
encryptedHex] = text.split(':')` — destructuring takes the first two
segments only; a missing second segment makes `Buffer.from(undefined,
'hex')` throw. -/
def decryptBackup (D : List Nat → List Nat) (s : List Char) : Option (List Nat) :=
  let parts := jsSplit ':' s
  match parts.get? 1 with
  | none => none
  | some ctHex => decryptCore D (hexToBytes (parts.headD [])) (hexToBytes ctHex)

/-- A keyed block-cipher family used to witness and to refute properties of
the envelope construction: byte-wise addition of the key value modulo 256.
Every `blockAdd k` is a genuine permutation of byte strings, inverted by
`blockAdd (256 - k % 256)`. -/
def blockAdd (k : Nat) (b : List Nat) : List Nat :=
  b.map (fun x => (x + k) % 256)

/-! ### Master-key derivation

Backup server (`src/server-backup.js` lines 16-23):
`crypto.createHash('sha256').update(process.env.ENCRYPTION_KEY ||
'dev-secret').digest()` — a one-way hash of the configured value, falling
back to the fixed string `'dev-secret'`.  SHA-256 itself is external
library code and is a parameter `hash`.

MongoDB server (`src/server.js` lines 24-28): `ENCRYPTION_KEY =
process.env.ENCRYPTION_KEY || crypto.randomBytes(32).toString('hex')`, used
as `Buffer.from(ENCRYPTION_KEY.slice(0, 64), 'hex')` — the raw configured
string is hex-decoded (no hash), and the fallback is fresh process
randomness (`rnd` is the random draw, an explicit argument). -/

/-- Key derivation of the backup server; `none`/`[]` model an unset or
empty `ENCRYPTION_KEY` environment variable (both falsy in JS). -/
def deriveKeyBackup (hash : List Char → List Nat) (env : Option (List Char)) : List Nat :=
  hash (match env with
    | some s => if s = [] then "dev-secret".toList else s
    | none => "dev-secret".toList)

/-- The raw `ENCRYPTION_KEY` string value of the MongoDB server. -/
def mainKeyString (env : Option (List Char)) (rnd : List Nat) : List Char :=
  match env with
  | some s => if s = [] then bytesToHex rnd else s
  | none => bytesToHex rnd

/-- The key bytes the MongoDB server feeds to `createCipheriv`:
`Buffer.from(ENCRYPTION_KEY.slice(0, 64), 'hex')`. -/
def deriveKeyMain (env : Option (List Char)) (rnd : List Nat) : List Nat :=
  hexToBytes ((mainKeyString env rnd).take 64)

/-! ### Account records and the account store

One `Account` shape covers both the mongoose documents of `src/server.js` /
`src/models/Account.js` and the in-memory objects of the backup server.
Timestamps (`addedAt`, `createdAt`, `updatedAt`) are wall-clock bookkeeping
and are not modelled; no claim depends on them.  A store is an association
list keyed by the account key (mongoose's unique index / the object map of
the backup server); `counter` is `Option Nat` because the backup server's
creation route stores no counter field at all (`undefined` in JS). -/

structure Account where
  name : String
  secret : List Char
  encrypted : Bool
  digits : Nat
  period : Nat
  algorithm : String
  type : String
  counter : Option Nat
  deriving DecidableEq, Repr

abbrev Store := List (String × Account)

/-- `accounts[key]` / `Account.findByKey(key)`. -/
def lookupKey (st : Store) (k : String) : Option Account :=
  (st.find? (fun e => e.1 == k)).map (·.2)

/-- Persisting a modified document for an existing key. -/
def replaceKey (st : Store) (k : String) (a : Account) : Store :=
  st.map (fun e => if e.1 == k then (k, a) else e)

/-- `String.prototype.toLowerCase` on Lean strings. -/
def jsToLowerS (s : String) : String := String.mk (jsToLower s.data)

/-- JavaScript `x || d` for an optional number: `undefined` and `0` are
falsy and give the default. -/
def jsOrNat (v : Option Nat) (d : Nat) : Nat :=
  match v with
  | some n => if n = 0 then d else n
  | none => d

/-- JavaScript `x || d` for an optional string: `undefined` and `""` are
falsy and give the default. -/
def jsOrStr (v : Option String) (d : String) : String :=
  match v with
  | some s => if s = "" then d else s
  | none => d

/-- Request body of `POST /api/accounts` (both servers destructure the same
fields; `encrypt` is the `encrypt` flag of the body). -/
structure ReqBody where
  key : String
  name : Option String
  secret : List Char
  digits : Option Nat
  period : Option Nat
  algorithm : Option String
  type : Option String
  counter : Option Nat
  encrypt : Option Bool
  deriving DecidableEq, Repr

/-- Request body of `PUT /api/accounts/:key` in `src/server.js`. -/
structure UpdBody where
  name : Option String
  secret : Option (List Char)
  digits : Option Nat
  period : Option Nat
  algorithm : Option String
  encrypt : Option Bool
  deriving DecidableEq, Repr

/-- Outcome of a store mutation, tagged with the HTTP status the route
returns.  `conflict` is the spec's `DuplicateKey` (409), `badRequest`
covers the 400 validation rejections, `serverError` the 500 path a thrown
validation error takes. -/
inductive CResult where
  | created
  | ok
  | badRequest
  | conflict
  | notFound
  | serverError
  deriving DecidableEq, Repr

/-- The mongoose schema validation of `src/models/Account.js` lines 4-55,
run by `save()`: `digits` in `[6, 8]`, `period` in `[15, 60]`,
`algorithm`/`type` restricted to their enums, `name`/`secret` required
(non-empty). -/
def schemaValid (a : Account) : Bool :=
  6 ≤ a.digits && a.digits ≤ 8 &&
  15 ≤ a.period && a.period ≤ 60 &&
  (a.algorithm == "sha1" || a.algorithm == "sha256" || a.algorithm == "sha512") &&
  (a.type == "totp" || a.type == "hotp") &&
  a.name != "" && a.secret != []

/-- The `lowercase: true` setters of the mongoose schema, applied on
assignment before validation. -/
def applySetters (a : Account) : Account :=
  { a with algorithm := jsToLowerS a.algorithm, type := jsToLowerS a.type }

/-- `const normalizedAlgorithm = (algorithm || 'sha1').toLowerCase()`. -/
def normalizedAlgorithm (r : ReqBody) : String :=
  jsToLowerS (jsOrStr r.algorithm "sha1")

/-- The document `new Account({...})` builds in `src/server.js` lines
169-179, with the schema's `lowercase` setters applied. -/
def mongoAccount (enc : List Char → List Char) (r : ReqBody) : Account :=
  applySetters
    { name := jsOrStr r.name r.key
      secret := if r.encrypt.getD false then enc r.secret else r.secret
      encrypted := r.encrypt.getD false
      digits := jsOrNat r.digits 6
      period := jsOrNat r.period 30
      algorithm := normalizedAlgorithm r
      type := jsOrStr r.type "totp"
      counter := some (r.counter.getD 0) }

/-- `POST /api/accounts` of `src/server.js` lines 140-193.  `validOk s
algo` models whether `speakeasy.totp({secret: s, encoding: 'base32',
algorithm: algo})` runs without throwing (external library); `enc` models
`encrypt` (the envelope construction, analysed separately over bytes).
Returns the route result and the store after the request; `save()` runs
the schema validation and a failure surfaces as a 500 with nothing
persisted. -/
def createMongo (validOk : List Char → String → Bool) (enc : List Char → List Char)
    (st : Store) (r : ReqBody) : CResult × Store :=
  if r.key = "" ∨ r.secret = [] then (.badRequest, st)
  else if (lookupKey st r.key).isSome then (.conflict, st)
  else if ¬ validOk r.secret (normalizedAlgorithm r) then (.badRequest, st)
  else if schemaValid (mongoAccount enc r) then
    (.created, st ++ [(r.key, mongoAccount enc r)])
  else (.serverError, st)

/-- The in-memory record `accounts[key] = {...}` built by the backup
server's creation route (lines 171-180 of the first document). -/
def backupAccount (enc : List Char → List Char) (r : ReqBody) : Account :=
  { name := jsOrStr r.name r.key
    secret := if r.encrypt.getD true then enc (normalizeBase32 r.secret)
              else normalizeBase32 r.secret
    encrypted := r.encrypt.getD true
    digits := r.digits.getD 6
    period := r.period.getD 30
    algorithm := jsToLowerS (r.algorithm.getD "sha256")
    type := r.type.getD "totp"
    counter := none }

/-- `POST /api/accounts` of the backup server (`src/server-backup.js` lines
146-183).  Destructuring defaults (`digits = 6`, `period = 30`, `type =
'totp'`, `algorithm = 'sha256'`, `encrypt = true`) apply only to absent
fields; `validOk2` models whether `speakeasy.totp({secret, encoding:
'base32'})` runs without throwing (its failure is uncaught, hence a 500).
No schema exists: the record is stored exactly as supplied. -/
def createBackup (validOk2 : List Char → Bool) (enc : List Char → List Char)
    (st : Store) (r : ReqBody) : CResult × Store :=
  if r.key = "" ∨ r.secret = [] then (.badRequest, st)
  else if (lookupKey st r.key).isSome then (.conflict, st)
  else if ¬ validOk2 (normalizeBase32 r.secret) then (.serverError, st)
  else (.created, st ++ [(r.key, backupAccount enc r)])

/-- `if (name) account.name = name` of the update route. -/
def updName (r : UpdBody) (a : Account) : Account :=
  match r.name with
  | some n => if n ≠ "" then { a with name := n } else a
  | none => a

/-- `if (digits) account.digits = digits`. -/
def updDigits (r : UpdBody) (a : Account) : Account :=
  match r.digits with
  | some d => if d ≠ 0 then { a with digits := d } else a
  | none => a

/-- `if (period) account.period = period`. -/
def updPeriod (r : UpdBody) (a : Account) : Account :=
  match r.period with
  | some p => if p ≠ 0 then { a with period := p } else a
  | none => a

/-- `if (algorithm) account.algorithm = algorithm.toLowerCase()`. -/
def updAlgorithm (r : UpdBody) (a : Account) : Account :=
  match r.algorithm with
  | some s => if s ≠ "" then { a with algorithm := jsToLowerS s } else a
  | none => a

/-- `if (secret) { account.secret = ...; account.encrypted = ... }`. -/
def updSecret (enc : List Char → List Char) (r : UpdBody) (a : Account) : Account :=
  match r.secret with
  | some s => if s ≠ [] then
      { a with secret := if r.encrypt.getD false then enc s else s
               encrypted := r.encrypt.getD false }
    else a
  | none => a

/-- The document as it stands when `account.save()` runs in the update
route, schema setters applied. -/
def updatedAccount (enc : List Char → List Char) (r : UpdBody) (a0 : Account) :
    Account :=
  applySetters (updSecret enc r (updAlgorithm r (updPeriod r (updDigits r (updName r a0)))))

/-- `PUT /api/accounts/:key` of `src/server.js` lines 223-255: each truthy
body field overwrites the document field, then `save()` re-runs the schema
validation; a validation failure surfaces as a 500 and persists nothing. -/
def updateMongo (enc : List Char → List Char) (st : Store) (k : String)
    (r : UpdBody) : CResult × Store :=
  match lookupKey st k with
  | none => (.notFound, st)
  | some a0 =>
    if schemaValid (updatedAccount enc r a0) then
      (.ok, replaceKey st k (updatedAccount enc r a0))
    else (.serverError, st)

/-! ### OTP issuance

`timeRemaining` is the arithmetic both servers compute inline
(`src/server.js` lines 76-77, `src/server-backup.js` lines 98-99).
`speakeasy.hotp` / `speakeasy.totp` and the composition of `decrypt` with
UTF-8 decoding are external calls bundled into an `OtpEnv`; a `none` result
models a thrown exception (e.g. a non-decodable secret or a failed
decryption). -/

/-- `period - (epoch % period)`, the remaining validity of the current TOTP
window. -/
def timeRemaining (period epoch : Nat) : Nat := period - epoch % period

/-- External calls available to the issuance routines. -/
structure OtpEnv where
  /-- the server's `decrypt` composed with `Buffer.toString('utf8')`. -/
  dec : List Char → Option (List Char)
  /-- `speakeasy.hotp({secret, encoding: 'base32', counter, digits})`. -/
  hotp : List Char → Nat → Nat → Option (List Char)
  /-- `speakeasy.totp({secret, encoding: 'base32', step, digits, algorithm,
  window})`. -/
  totp : List Char → Nat → Nat → String → Nat → Option (List Char)
  /-- current epoch seconds. -/
  now : Nat

/-- The value `generateOTP` returns. -/
structure OtpResult where
  code : List Char
  type : String
  timeRemaining : Option Nat
  deriving DecidableEq, Repr

/-- `generateOTP` from `src/server-backup.js` lines 71-106.  For an HOTP
account the token is computed at the stored counter (`account.counter ||
0`), then `account.counter = (account.counter || 0) + 1` — the increment is
inside the routine, after a successful token computation.  For TOTP the
account is untouched.  Returns the result together with the (possibly
updated) account object. -/
def generateOTP (env : OtpEnv) (acc : Account) : Option (OtpResult × Account) :=
  (if acc.encrypted then env.dec acc.secret else some acc.secret).bind fun s0 =>
    let secret := normalizeBase32 s0
    if acc.type = "hotp" then
      (env.hotp secret (acc.counter.getD 0) acc.digits).map fun tok =>
        ({ code := tok, type := "hotp", timeRemaining := none },
         { acc with counter := some (acc.counter.getD 0 + 1) })
    else
      (env.totp secret acc.period acc.digits
          (if acc.algorithm = "" then "sha256" else acc.algorithm) 1).map fun tok =>
        ({ code := tok, type := "totp",
           timeRemaining := some (timeRemaining acc.period env.now) }, acc)

/-- `n` successive issuances through `generateOTP` for the same account,
propagating the stored account between calls; `none` if any issuance
fails. -/
def iterIssue (env : OtpEnv) : Nat → Account → Option Account
  | 0, acc => some acc
  | n + 1, acc => (generateOTP env acc).bind fun ra => iterIssue env n ra.2

/-- Response of `GET /api/code/:accountKey` in `src/server.js`. -/
structure CodeResp where
  account : String
  code : List Char
  algorithm : String
  timeRemaining : Nat
  deriving DecidableEq, Repr

/-- `GET /api/code/:accountKey` from `src/server.js` lines 45-90: find the
account, decrypt the secret if flagged, and call `speakeasy.totp` with the
account's algorithm/digits/period and `window: 0` — unconditionally, for
every account type, and without ever writing to the store.  `none` models
the 404/500 responses. -/
def serverGetCode (env : OtpEnv) (st : Store) (k : String) :
    Option CodeResp × Store :=
  match lookupKey st k with
  | none => (none, st)
  | some acc =>
    match (if acc.encrypted then env.dec acc.secret else some acc.secret) with
    | none => (none, st)
    | some secret =>
      match env.totp secret acc.period acc.digits acc.algorithm 0 with
      | none => (none, st)
      | some tok =>
        (some { account := if acc.name = "" then k else acc.name
                code := tok
                algorithm := acc.algorithm
                timeRemaining := timeRemaining acc.period env.now }, st)

/-- One entry of the backup server's `GET /api/codes` map (lines 134-143):
`generateOTP` is attempted per account; a failure is caught per entry and
leaves that account untouched. -/
def issueEntry (env : OtpEnv) (e : String × Account) :
    (String × Option OtpResult) × (String × Account) :=
  match generateOTP env e.2 with
  | some ra => ((e.1, some ra.1), (e.1, ra.2))
  | none => ((e.1, none), e)

/-- `GET /api/codes` of the backup server: map `generateOTP` over every
stored account (mutating each HOTP account object in place). Returns the
response list and the store afterwards. -/
def getAllCodes (env : OtpEnv) (st : Store) :
    List (String × Option OtpResult) × Store :=
  ((st.map (issueEntry env)).map Prod.fst, (st.map (issueEntry env)).map Prod.snd)

/-- Response of the backup server's `GET /api/debug/:key`. -/
structure DebugResp where
  normalizedSecret : List Char
  otp : OtpResult
  deriving DecidableEq, Repr

/-- `GET /api/debug/:key` of the backup server (lines 186-197): decrypts
the secret for display and then calls the same `generateOTP` on the stored
account object — an uncaught failure yields a 500 with no store change. -/
def debugGet (env : OtpEnv) (st : Store) (k : String) :
    Option DebugResp × Store :=
  match lookupKey st k with
  | none => (none, st)
  | some acc =>
    match (if acc.encrypted then env.dec acc.secret else some acc.secret) with
    | none => (none, st)
    | some s0 =>
      match generateOTP env acc with
      | none => (none, st)
      | some ra =>
        (some { normalizedSecret := normalizeBase32 s0, otp := ra.1 },
         replaceKey st k ra.2)

/-! ### The `otpauth://` URI parser

`parseOTPAuth` in the second document of `src/server-backup.js` (lines
277-307) uses the WHATWG `URL` class and `URLSearchParams`.  Those runtime
facilities are modelled here for the URI shapes the function handles:
`otpauth://{host}{/path}?{query}` with an opaque host ending at `/`, `?` or
`#`, `decodeURIComponent` percent-decoding (ASCII escapes; a malformed
escape throws) and `application/x-www-form-urlencoded` query decoding
(`+` becomes a space, malformed escapes pass through). -/

/-- Whether `p` is a prefix of `s` (JS `String.prototype.startsWith`). -/
def listStartsWith : List Char → List Char → Bool
  | [], _ => true
  | _, [] => false
  | p :: ps, c :: cs => p == c && listStartsWith ps cs

/-- `decodeURIComponent` for ASCII percent-escapes: `none` models the
`URIError` thrown on a malformed escape. -/
def percentDecode : List Char → Option (List Char)
  | [] => some []
  | c :: rest =>
    if c = '%' then
      match rest with
      | c1 :: c2 :: rest2 =>
        match hexVal c1, hexVal c2 with
        | some h, some l =>
          (percentDecode rest2).map (fun r => Char.ofNat (16 * h + l) :: r)
        | _, _ => none
      | _ => none
    else (percentDecode rest).map (fun r => c :: r)

/-- Fuel-driven worker for `formDecode` (the malformed-escape branch
re-processes the tail, which structural recursion cannot track). -/
def formDecodeAux : Nat → List Char → List Char
  | 0, s => s
  | fuel + 1, s =>
    match s with
    | [] => []
    | c :: rest =>
      if c = '+' then ' ' :: formDecodeAux fuel rest
      else if c = '%' then
        match rest with
        | c1 :: c2 :: rest2 =>
          (match hexVal c1, hexVal c2 with
           | some h, some l => Char.ofNat (16 * h + l) :: formDecodeAux fuel rest2
           | _, _ => '%' :: formDecodeAux fuel rest)
        | _ => '%' :: formDecodeAux fuel rest
      else c :: formDecodeAux fuel rest

/-- Form decoding used by `URLSearchParams`: `+` is a space, valid
percent-escapes are decoded, malformed ones pass through verbatim. -/
def formDecode (s : List Char) : List Char := formDecodeAux s.length s

/-- The URI after the 10-character `otpauth://` scheme prefix. -/
def afterScheme (u : List Char) : List Char := u.drop 10

/-- Characters that terminate the opaque host of a non-special-scheme URL. -/
def hostEnd (c : Char) : Bool := c == '/' || c == '?' || c == '#'

/-- Characters that terminate the path. -/
def pathEnd (c : Char) : Bool := c == '?' || c == '#'

/-- The opaque host of a non-special-scheme URL: everything up to the first
`/`, `?` or `#`. -/
def rawHost (u : List Char) : List Char :=
  (afterScheme u).takeWhile (fun c => !hostEnd c)

/-- The remainder of the URI after the host. -/
def afterHost (u : List Char) : List Char :=
  (afterScheme u).dropWhile (fun c => !hostEnd c)

/-- `urlObj.pathname`: from the host to the query/fragment. -/
def rawPath (u : List Char) : List Char :=
  (afterHost u).takeWhile (fun c => !pathEnd c)

/-- The query string (without the leading `?`), as consumed by
`new URLSearchParams(urlObj.search)`. -/
def rawQuery (u : List Char) : List Char :=
  match (afterHost u).dropWhile (fun c => !pathEnd c) with
  | '?' :: rest => rest.takeWhile (fun c => !(c == '#'))
  | _ => []

/-- One `name=value` query segment: the name is everything before the first
`=`, the value everything after it (empty when there is no `=`). -/
def pairOfSegment (seg : List Char) : List Char × List Char :=
  (formDecode (seg.takeWhile (fun c => !(c == '='))),
   formDecode ((seg.dropWhile (fun c => !(c == '='))).drop 1))

/-- `URLSearchParams` pair list: split on `&`, skipping empty segments. -/
def queryPairs (s : List Char) : List (List Char × List Char) :=
  ((jsSplit '&' s).filter (fun seg => !seg.isEmpty)).map pairOfSegment

/-- `params.get(name)`: the first matching pair's value, `none` when the
parameter is absent. -/
def qget (s : List Char) (nm : List Char) : Option (List Char) :=
  ((queryPairs s).find? (fun p => p.1 == nm)).map (·.2)

/-- JS `Number(s)` restricted to the non-negative decimal strings the
parser meets; `none` models `NaN`. -/
def jsNumber (s : List Char) : Option Nat :=
  if s.all (fun c => c.isDigit) ∧ ¬ s = []
  then some (s.foldl (fun a c => 10 * a + (c.toNat - 48)) 0)
  else none

/-- Result record of `parseOTPAuth` (the `otpAuthUrl` echo field is the
input itself and is omitted).  `digits`/`period` are `Option Nat` with
`none` modelling `NaN`; `counter` is `Option` because the source stores
`params.get("counter") || null`. -/
structure ParsedOTP where
  secret : List Char
  issuer : List Char
  accountName : List Char
  type : List Char
  algorithm : List Char
  digits : Option Nat
  period : Option Nat
  counter : Option (List Char)
  deriving DecidableEq, Repr

/-- `parseOTPAuth` from `src/server-backup.js` lines 277-307 (second
document).  Throws (`Except.error`) when the scheme is wrong, when a label
percent-escape is malformed, or when the `secret` parameter is absent or
empty (falsy). -/
def parseOTPAuth (u : List Char) : Except (List Char) ParsedOTP :=
  if ¬ listStartsWith "otpauth://".toList u then .error "Invalid OTP Auth URL".toList
  else
    match percentDecode ((rawPath u).drop 1) with
    | none => .error "URIError".toList
    | some label =>
      let q := rawQuery u
      match qget q "secret".toList with
      | none => .error "Secret not found".toList
      | some secret =>
        if secret = [] then .error "Secret not found".toList
        else
          .ok { secret := secret
                issuer :=
                  match qget q "issuer".toList with
                  | some v => if v = [] then (jsSplit ':' label).headD [] else v
                  | none => (jsSplit ':' label).headD []
                accountName :=
                  if label.contains ':' then (jsSplit ':' label).getD 1 [] else label
                type := jsToLower (rawHost u)
                algorithm :=
                  jsToLower (match qget q "algorithm".toList with
                    | some v => if v = [] then "SHA1".toList else v
                    | none => "SHA1".toList)
                digits :=
                  match qget q "digits".toList with
                  | some v => if v = [] then some 6 else jsNumber v
                  | none => some 6
                period :=
                  match qget q "period".toList with
                  | some v => if v = [] then some 30 else jsNumber v
                  | none => some 30
                counter :=
                  match qget q "counter".toList with
                  | some v => if v = [] then none else some v
                  | none => none }

/-- Modelled from the spec: the issuer the specification prescribes for a
parsed URI — the explicit `issuer` parameter when present, otherwise the
portion of the label before a colon, and **undefined (`none`) when neither
is present**.  Stated only to compare `parseOTPAuth` against the spec's
words; the source computes `params.get("issuer") ||
label.split(":")[0]`. -/
def specIssuer (issuerParam : Option (List Char)) (label : List Char) :
    Option (List Char) :=
  match issuerParam with
  | some v => some v
  | none =>
    if label.contains ':' then some (label.takeWhile (fun c => ¬ c = ':'))
    else none

/-! ### Parser helper lemmas -/

/-- A benign label/secret character: alphanumeric, `@` or `.` — in
particular none of the URI metacharacters. -/
def plainChar (c : Char) : Bool := c.isAlphanum || c == '@' || c == '.'

/-- URI construction helper for stating the parser contract:
`otpauth://{host}/{label}?{query}` with explicit right-nested list
structure. -/
def otpURI (host label query : List Char) : List Char :=
  "otpauth://".toList ++ (host ++ ('/' :: (label ++ ('?' :: query))))

/-- The query string `secret={sec}`. -/
def secretQuery (sec : List Char) : List Char :=
  "secret".toList ++ ('=' :: sec)

/-! ## Theorems -/

theorem hexVal_hexChar {n : Nat} (h : n < 16) : hexVal (hexChar n) = some n := by
  interval_cases n <;> decide

theorem hexChar_ne_colon {n : Nat} (h : n < 16) : hexChar n ≠ ':' := by
  interval_cases n <;> decide

theorem hexToBytes_bytesToHex {bs : List Nat} (h : ∀ b ∈ bs, b < 256) :
    hexToBytes (bytesToHex bs) = bs := by
  induction bs with
  | nil => rfl
  | cons b bs ih =>
    have hb : b < 256 := h b (by simp)
    have h1 : b / 16 < 16 := by omega
    have h2 : b % 16 < 16 := by omega
    simp only [bytesToHex, hexToBytes, hexVal_hexChar h1, hexVal_hexChar h2]
    rw [ih (fun x hx => h x (by simp [hx]))]
    congr 1
    omega

theorem colon_not_mem_bytesToHex {bs : List Nat} (h : ∀ b ∈ bs, b < 256) :
    ':' ∉ bytesToHex bs := by
  induction bs with
  | nil => simp [bytesToHex]
  | cons b bs ih =>
    have hb : b < 256 := h b (by simp)
    simp only [bytesToHex, List.mem_cons, not_or]
    refine ⟨?_, ?_, ih (fun x hx => h x (by simp [hx]))⟩
    · exact fun hc => hexChar_ne_colon (by omega : b / 16 < 16) hc.symm
    · exact fun hc => hexChar_ne_colon (by omega : b % 16 < 16) hc.symm

theorem length_bytesToHex (bs : List Nat) :
    (bytesToHex bs).length = 2 * bs.length := by
  induction bs with
  | nil => rfl
  | cons b bs ih => simp [bytesToHex, ih]; omega

/-! ### `jsSplit` facts used for the envelope layout -/

theorem jsSplit_no_sep {sep : Char} {s : List Char} (h : sep ∉ s) :
    jsSplit sep s = [s] := by
  induction s with
  | nil => rfl
  | cons c cs ih =>
    have hc : c ≠ sep := fun hc => h (by simp [hc])
    have hcs : sep ∉ cs := fun hm => h (by simp [hm])
    simp only [jsSplit, if_neg hc, ih hcs]

theorem jsSplit_append_sep {sep : Char} {a b : List Char} (ha : sep ∉ a) :
    jsSplit sep (a ++ sep :: b) = a :: jsSplit sep b := by
  induction a with
  | nil => simp [jsSplit]
  | cons c cs ih =>
    have hc : c ≠ sep := fun hc => ha (by simp [hc])
    have hcs : sep ∉ cs := fun hm => ha (by simp [hm])
    have hne : jsSplit sep (cs ++ sep :: b) ≠ [] := by
      rw [ih hcs]; simp
    simp only [List.cons_append, jsSplit, if_neg hc, List.append_eq]
    rw [ih hcs]

theorem chunks16Aux_congr :
    ∀ (f1 f2 : Nat) (bs : List Nat), bs.length ≤ f1 → bs.length ≤ f2 →
      chunks16Aux f1 bs = chunks16Aux f2 bs := by
  intro f1
  induction f1 with
  | zero =>
    intro f2 bs h1 h2
    have : bs = [] := List.eq_nil_of_length_eq_zero (by omega)
    subst this
    cases f2 <;> rfl
  | succ k ih =>
    intro f2 bs h1 h2
    cases bs with
    | nil => cases f2 <;> rfl
    | cons b tl =>
      cases f2 with
      | zero => simp at h2
      | succ m =>
        simp only [chunks16Aux]
        congr 1
        apply ih
        · simp only [List.length_drop]
          simp only [List.length_cons] at h1
          omega
        · simp only [List.length_drop]
          simp only [List.length_cons] at h2
          omega

theorem chunks16_nil : chunks16 [] = [] := rfl

theorem chunks16_cons (bs : List Nat) (h : bs ≠ []) :
    chunks16 bs = bs.take 16 :: chunks16 (bs.drop 16) := by
  cases bs with
  | nil => exact absurd rfl h
  | cons b tl =>
    show chunks16Aux (tl.length + 1) (b :: tl) = _
    simp only [chunks16Aux]
    congr 1
    show chunks16Aux tl.length (tl.drop 15) = chunks16 ((b :: tl).drop 16)
    rw [List.drop_succ_cons]
    apply chunks16Aux_congr
    · simp only [List.length_drop]; omega
    · exact Nat.le_refl _

/-! ### Cipher-layer lemmas -/

theorem xorBytes_length {a b : List Nat} (h : a.length = b.length) :
    (xorBytes a b).length = a.length := by
  induction a generalizing b with
  | nil => simp [xorBytes]
  | cons x xs ih =>
    cases b with
    | nil => simp at h
    | cons y ys =>
      simp only [xorBytes, List.length_cons]
      rw [ih (by simpa using h)]

theorem xorBytes_lt {a b : List Nat} (ha : ∀ x ∈ a, x < 256)
    (hb : ∀ x ∈ b, x < 256) : ∀ x ∈ xorBytes a b, x < 256 := by
  induction a generalizing b with
  | nil => simp [xorBytes]
  | cons x xs ih =>
    cases b with
    | nil => simp [xorBytes]
    | cons y ys =>
      intro z hz
      simp only [xorBytes, List.mem_cons] at hz
      rcases hz with hz | hz
      · subst hz
        have hx : x < 2 ^ 8 := ha x (by simp)
        have hy : y < 2 ^ 8 := hb y (by simp)
        calc x ^^^ y < 2 ^ 8 := Nat.xor_lt_two_pow hx hy
          _ = 256 := by norm_num
      · exact ih (fun u hu => ha u (by simp [hu])) (fun u hu => hb u (by simp [hu])) z hz

theorem xorBytes_xorBytes {a b : List Nat} (h : a.length = b.length) :
    xorBytes (xorBytes a b) b = a := by
  induction a generalizing b with
  | nil => simp [xorBytes]
  | cons x xs ih =>
    cases b with
    | nil => simp at h
    | cons y ys =>
      simp only [xorBytes]
      rw [ih (by simpa using h)]
      simp [Nat.xor_assoc]

theorem padLen_pos (n : Nat) : 1 ≤ padLen n := by
  simp only [padLen]; omega

theorem padLen_le (n : Nat) : padLen n ≤ 16 := by
  simp only [padLen]; omega

theorem length_pkcs7pad (bs : List Nat) :
    (pkcs7pad bs).length = bs.length + padLen bs.length := by
  simp [pkcs7pad]

theorem length_pkcs7pad_mod (bs : List Nat) : (pkcs7pad bs).length % 16 = 0 := by
  rw [length_pkcs7pad]
  simp only [padLen]
  omega

theorem pkcs7pad_ne_nil (bs : List Nat) : pkcs7pad bs ≠ [] := by
  intro h
  have h2 := congrArg List.length h
  rw [length_pkcs7pad] at h2
  have h3 := padLen_pos bs.length
  simp only [List.length_nil] at h2
  omega

theorem getLast?_replicate_succ (n : Nat) (a : Nat) :
    (List.replicate (n + 1) a).getLast? = some a := by
  rw [List.replicate_succ', List.getLast?_concat]

theorem pkcs7unpad_pkcs7pad (bs : List Nat) : pkcs7unpad (pkcs7pad bs) = some bs := by
  have hp1 : 1 ≤ padLen bs.length := padLen_pos _
  have hp16 : padLen bs.length ≤ 16 := padLen_le _
  set p := padLen bs.length with hp
  have hrep : List.replicate p p ≠ [] := by
    obtain ⟨k, hk⟩ : ∃ k, p = k + 1 := ⟨p - 1, by omega⟩
    rw [hk]; simp
  have hlast : (pkcs7pad bs).getLast? = some p := by
    rw [pkcs7pad, ← hp, List.getLast?_append_of_ne_nil _ hrep]
    obtain ⟨k, hk⟩ : ∃ k, p = k + 1 := ⟨p - 1, by omega⟩
    rw [hk]
    exact getLast?_replicate_succ k (k + 1)
  have hlen : (pkcs7pad bs).length = bs.length + p := by
    simp [pkcs7pad, ← hp]
  have hsub : (pkcs7pad bs).length - p = bs.length := by omega
  have hdrop : (pkcs7pad bs).drop bs.length = List.replicate p p := by
    rw [pkcs7pad, ← hp]
    have := List.drop_left bs (List.replicate p p)
    exact this
  have htake : (pkcs7pad bs).take bs.length = bs := by
    rw [pkcs7pad, ← hp]
    exact List.take_left bs (List.replicate p p)
  simp only [pkcs7unpad, hlast]
  rw [if_pos]
  · rw [hsub, htake]
  · refine ⟨hp1, hp16, by omega, ?_⟩
    rw [hsub, hdrop]
    simp [List.all_eq_true]

theorem flatten_chunks16_fuel :
    ∀ (n : Nat) (bs : List Nat), bs.length ≤ n → (chunks16 bs).flatten = bs := by
  intro n
  induction n with
  | zero =>
    intro bs h
    have hb : bs = [] := List.eq_nil_of_length_eq_zero (by omega)
    subst hb
    rfl
  | succ k ih =>
    intro bs h
    by_cases hb : bs = []
    · subst hb; rfl
    · rw [chunks16_cons bs hb]
      simp only [List.flatten_cons]
      have hpos : 1 ≤ bs.length := List.length_pos.mpr hb
      rw [ih (bs.drop 16) (by simp only [List.length_drop]; omega)]
      exact List.take_append_drop 16 bs

theorem flatten_chunks16 (bs : List Nat) : (chunks16 bs).flatten = bs :=
  flatten_chunks16_fuel bs.length bs (Nat.le_refl _)

theorem chunks16_ne_nil {bs : List Nat} (h : bs ≠ []) : chunks16 bs ≠ [] := by
  rw [chunks16_cons bs h]
  simp

theorem chunks16_length_mem_fuel :
    ∀ (n : Nat) (bs : List Nat), bs.length ≤ n → bs.length % 16 = 0 →
      ∀ b ∈ chunks16 bs, b.length = 16 := by
  intro n
  induction n with
  | zero =>
    intro bs h _
    have hb : bs = [] := List.eq_nil_of_length_eq_zero (by omega)
    subst hb
    simp [chunks16_nil]
  | succ k ih =>
    intro bs h hmod
    by_cases hb : bs = []
    · subst hb; simp [chunks16_nil]
    · rw [chunks16_cons bs hb]
      intro b hbm
      have hpos : 1 ≤ bs.length := List.length_pos.mpr hb
      have hlen : 16 ≤ bs.length := by omega
      rcases List.mem_cons.mp hbm with hbm | hbm
      · subst hbm
        simp only [List.length_take]
        omega
      · exact ih (bs.drop 16) (by simp only [List.length_drop]; omega)
          (by simp only [List.length_drop]; omega) b hbm

theorem chunks16_length_mem {bs : List Nat} (hmod : bs.length % 16 = 0) :
    ∀ b ∈ chunks16 bs, b.length = 16 :=
  chunks16_length_mem_fuel bs.length bs (Nat.le_refl _) hmod

theorem chunks16_range_mem_fuel :
    ∀ (n : Nat) (bs : List Nat), bs.length ≤ n → (∀ x ∈ bs, x < 256) →
      ∀ b ∈ chunks16 bs, ∀ x ∈ b, x < 256 := by
  intro n
  induction n with
  | zero =>
    intro bs h _
    have hb : bs = [] := List.eq_nil_of_length_eq_zero (by omega)
    subst hb
    simp [chunks16_nil]
  | succ k ih =>
    intro bs h hr
    by_cases hb : bs = []
    · subst hb; simp [chunks16_nil]
    · rw [chunks16_cons bs hb]
      intro b hbm x hx
      have hpos : 1 ≤ bs.length := List.length_pos.mpr hb
      rcases List.mem_cons.mp hbm with hbm | hbm
      · exact hr x (List.mem_of_mem_take (hbm ▸ hx))
      · exact ih (bs.drop 16) (by simp only [List.length_drop]; omega)
          (fun y hy => hr y (List.mem_of_mem_drop hy)) b hbm x hx

theorem chunks16_range_mem {bs : List Nat} (hr : ∀ x ∈ bs, x < 256) :
    ∀ b ∈ chunks16 bs, ∀ x ∈ b, x < 256 :=
  chunks16_range_mem_fuel bs.length bs (Nat.le_refl _) hr

theorem chunks16_flatten {blocks : List (List Nat)}
    (h : ∀ b ∈ blocks, b.length = 16) :
    chunks16 blocks.flatten = blocks := by
  induction blocks with
  | nil => simp [chunks16_nil]
  | cons b bs ih =>
    have hb : b.length = 16 := h b (by simp)
    have hbne : b ≠ [] := by
      intro he
      rw [he] at hb
      simp at hb
    have hne : (b :: bs).flatten ≠ [] := by
      simp only [List.flatten_cons]
      intro he
      exact hbne (List.append_eq_nil.mp he).1
    rw [show (b :: bs).flatten = b ++ bs.flatten from rfl] at hne ⊢
    rw [chunks16_cons _ hne]
    have htake : (b ++ bs.flatten).take 16 = b := by
      rw [← hb]
      exact List.take_left b bs.flatten
    have hdrop : (b ++ bs.flatten).drop 16 = bs.flatten := by
      rw [← hb]
      exact List.drop_left b bs.flatten
    rw [htake, hdrop, ih (fun x hx => h x (by simp [hx]))]

theorem length_flatten_chunks {blocks : List (List Nat)}
    (h : ∀ b ∈ blocks, b.length = 16) :
    blocks.flatten.length = 16 * blocks.length := by
  induction blocks with
  | nil => simp
  | cons b bs ih =>
    simp only [List.flatten_cons, List.length_append, List.length_cons]
    rw [h b (by simp), ih (fun x hx => h x (by simp [hx]))]
    ring

theorem cbcEnc_length (E : List Nat → List Nat) (prev : List Nat)
    (blocks : List (List Nat)) :
    (cbcEnc E prev blocks).length = blocks.length := by
  induction blocks generalizing prev with
  | nil => rfl
  | cons b bs ih => simp [cbcEnc, ih]

/-- The CBC ciphertext blocks are well-formed 16-byte blocks whenever the
block permutation preserves well-formedness. -/
theorem cbcEnc_blocks {E : List Nat → List Nat}
    (hE : ∀ b, b.length = 16 → (∀ x ∈ b, x < 256) →
      (E b).length = 16 ∧ ∀ x ∈ E b, x < 256) :
    ∀ (blocks : List (List Nat)) (prev : List Nat), prev.length = 16 →
      (∀ x ∈ prev, x < 256) →
      (∀ b ∈ blocks, b.length = 16 ∧ ∀ x ∈ b, x < 256) →
      ∀ c ∈ cbcEnc E prev blocks, c.length = 16 ∧ ∀ x ∈ c, x < 256 := by
  intro blocks
  induction blocks with
  | nil => intro prev _ _ _ c hc; simp [cbcEnc] at hc
  | cons b bs ih =>
    intro prev hplen hprange hblocks c hc
    obtain ⟨hblen, hbrange⟩ := hblocks b (by simp)
    have hxlen : (xorBytes b prev).length = 16 := by
      rw [xorBytes_length (by rw [hblen, hplen])]; exact hblen
    have hxrange : ∀ x ∈ xorBytes b prev, x < 256 := xorBytes_lt hbrange hprange
    obtain ⟨hclen, hcrange⟩ := hE _ hxlen hxrange
    simp only [cbcEnc, List.mem_cons] at hc
    rcases hc with hc | hc
    · subst hc; exact ⟨hclen, hcrange⟩
    · exact ih _ hclen hcrange (fun x hx => hblocks x (by simp [hx])) c hc

/-- CBC decryption inverts CBC encryption block-by-block when `D` inverts
`E` on well-formed blocks. -/
theorem cbcDec_cbcEnc {E D : List Nat → List Nat}
    (hinv : ∀ b, b.length = 16 → (∀ x ∈ b, x < 256) → D (E b) = b)
    (hE : ∀ b, b.length = 16 → (∀ x ∈ b, x < 256) →
      (E b).length = 16 ∧ ∀ x ∈ E b, x < 256) :
    ∀ (blocks : List (List Nat)) (prev : List Nat), prev.length = 16 →
      (∀ x ∈ prev, x < 256) →
      (∀ b ∈ blocks, b.length = 16 ∧ ∀ x ∈ b, x < 256) →
      cbcDec D prev (cbcEnc E prev blocks) = blocks := by
  intro blocks
  induction blocks with
  | nil => intro prev _ _ _; rfl
  | cons b bs ih =>
    intro prev hplen hprange hblocks
    obtain ⟨hblen, hbrange⟩ := hblocks b (by simp)
    have hxlen : (xorBytes b prev).length = 16 := by
      rw [xorBytes_length (by rw [hblen, hplen])]; exact hblen
    have hxrange : ∀ x ∈ xorBytes b prev, x < 256 := xorBytes_lt hbrange hprange
    obtain ⟨hclen, hcrange⟩ := hE _ hxlen hxrange
    simp only [cbcEnc, cbcDec]
    rw [hinv _ hxlen hxrange, xorBytes_xorBytes (by rw [hblen, hplen])]
    congr 1
    exact ih _ hclen hcrange (fun x hx => hblocks x (by simp [hx]))

theorem pkcs7pad_range {text : List Nat} (h : ∀ x ∈ text, x < 256) :
    ∀ x ∈ pkcs7pad text, x < 256 := by
  intro x hx
  rcases List.mem_append.mp hx with hx | hx
  · exact h x hx
  · have := List.eq_of_mem_replicate hx
    have := padLen_le text.length
    omega

/-- Decrypting (with the matching block permutation) the CBC ciphertext the
envelope carries returns exactly the original plaintext bytes. -/
theorem decryptCore_roundtrip {E D : List Nat → List Nat}
    (hinv : ∀ b, b.length = 16 → (∀ x ∈ b, x < 256) → D (E b) = b)
    (hE : ∀ b, b.length = 16 → (∀ x ∈ b, x < 256) →
      (E b).length = 16 ∧ ∀ x ∈ E b, x < 256)
    (iv text : List Nat) (hivlen : iv.length = 16)
    (hivr : ∀ x ∈ iv, x < 256) (htextr : ∀ x ∈ text, x < 256) :
    decryptCore D iv
      (List.flatten (cbcEnc E iv (chunks16 (pkcs7pad text)))) = some text := by
  have hpadr := pkcs7pad_range htextr
  have hpmod := length_pkcs7pad_mod text
  have hpblocks : ∀ b ∈ chunks16 (pkcs7pad text), b.length = 16 ∧ ∀ x ∈ b, x < 256 :=
    fun b hb => ⟨chunks16_length_mem hpmod b hb, chunks16_range_mem hpadr b hb⟩
  have hcblocks := cbcEnc_blocks hE (chunks16 (pkcs7pad text)) iv hivlen hivr hpblocks
  have hclens : ∀ c ∈ cbcEnc E iv (chunks16 (pkcs7pad text)), c.length = 16 :=
    fun c hc => (hcblocks c hc).1
  have hctlen := length_flatten_chunks hclens
  have hnum := cbcEnc_length E iv (chunks16 (pkcs7pad text))
  have hchne := chunks16_ne_nil (pkcs7pad_ne_nil text)
  have hpos : 0 < (chunks16 (pkcs7pad text)).length := List.length_pos.mpr hchne
  rw [decryptCore, if_neg (by rw [hivlen]; simp)]
  rw [if_neg (by rw [hctlen, hnum]; omega)]
  rw [chunks16_flatten hclens,
      cbcDec_cbcEnc hinv hE (chunks16 (pkcs7pad text)) iv hivlen hivr hpblocks,
      flatten_chunks16, pkcs7unpad_pkcs7pad]

theorem flatten_range {blocks : List (List Nat)}
    (h : ∀ b ∈ blocks, ∀ x ∈ b, x < 256) : ∀ x ∈ blocks.flatten, x < 256 := by
  intro x hx
  obtain ⟨b, hb, hxb⟩ := List.mem_flatten.mp hx
  exact h b hb x hxb

/-- Round-trip of the full envelope through the MongoDB-server `decrypt`
(`parts.shift()` / `parts.join(':')` variant). -/
theorem decryptMongo_encryptEnvelope {E D : List Nat → List Nat}
    (hinv : ∀ b, b.length = 16 → (∀ x ∈ b, x < 256) → D (E b) = b)
    (hE : ∀ b, b.length = 16 → (∀ x ∈ b, x < 256) →
      (E b).length = 16 ∧ ∀ x ∈ E b, x < 256)
    (iv text : List Nat) (hivlen : iv.length = 16)
    (hivr : ∀ x ∈ iv, x < 256) (htextr : ∀ x ∈ text, x < 256) :
    decryptMongo D (encryptEnvelope E iv text) = some text := by
  have hpadr := pkcs7pad_range htextr
  have hpmod := length_pkcs7pad_mod text
  have hpblocks : ∀ b ∈ chunks16 (pkcs7pad text), b.length = 16 ∧ ∀ x ∈ b, x < 256 :=
    fun b hb => ⟨chunks16_length_mem hpmod b hb, chunks16_range_mem hpadr b hb⟩
  have hcblocks := cbcEnc_blocks hE (chunks16 (pkcs7pad text)) iv hivlen hivr hpblocks
  have hctr : ∀ x ∈ List.flatten (cbcEnc E iv (chunks16 (pkcs7pad text))), x < 256 :=
    flatten_range (fun b hb => (hcblocks b hb).2)
  rw [decryptMongo, encryptEnvelope,
      jsSplit_append_sep (colon_not_mem_bytesToHex hivr),
      jsSplit_no_sep (colon_not_mem_bytesToHex hctr)]
  simp only [List.headD_cons, List.tail_cons, joinWith]
  rw [hexToBytes_bytesToHex hivr, hexToBytes_bytesToHex hctr]
  exact decryptCore_roundtrip hinv hE iv text hivlen hivr htextr

/-- Round-trip of the full envelope through the backup-server `decrypt`
(array-destructuring variant). -/
theorem decryptBackup_encryptEnvelope {E D : List Nat → List Nat}
    (hinv : ∀ b, b.length = 16 → (∀ x ∈ b, x < 256) → D (E b) = b)
    (hE : ∀ b, b.length = 16 → (∀ x ∈ b, x < 256) →
      (E b).length = 16 ∧ ∀ x ∈ E b, x < 256)
    (iv text : List Nat) (hivlen : iv.length = 16)
    (hivr : ∀ x ∈ iv, x < 256) (htextr : ∀ x ∈ text, x < 256) :
    decryptBackup D (encryptEnvelope E iv text) = some text := by
  have hpadr := pkcs7pad_range htextr
  have hpmod := length_pkcs7pad_mod text
  have hpblocks : ∀ b ∈ chunks16 (pkcs7pad text), b.length = 16 ∧ ∀ x ∈ b, x < 256 :=
    fun b hb => ⟨chunks16_length_mem hpmod b hb, chunks16_range_mem hpadr b hb⟩
  have hcblocks := cbcEnc_blocks hE (chunks16 (pkcs7pad text)) iv hivlen hivr hpblocks
  have hctr : ∀ x ∈ List.flatten (cbcEnc E iv (chunks16 (pkcs7pad text))), x < 256 :=
    flatten_range (fun b hb => (hcblocks b hb).2)
  rw [decryptBackup, encryptEnvelope,
      jsSplit_append_sep (colon_not_mem_bytesToHex hivr),
      jsSplit_no_sep (colon_not_mem_bytesToHex hctr)]
  simp only [List.get?_eq_getElem?, List.getElem?_cons_succ, List.getElem?_cons_zero,
    List.headD_cons]
  rw [hexToBytes_bytesToHex hivr, hexToBytes_bytesToHex hctr]
  exact decryptCore_roundtrip hinv hE iv text hivlen hivr htextr

/-- Two encryptions of the same plaintext under different IVs produce
different envelopes: the envelope starts with the hex of the IV, and hex
encoding is injective on byte strings. -/
theorem encryptEnvelope_iv_ne {E : List Nat → List Nat} {iv1 iv2 : List Nat}
    (text : List Nat) (hr1 : ∀ x ∈ iv1, x < 256) (hr2 : ∀ x ∈ iv2, x < 256)
    (hne : iv1 ≠ iv2) :
    encryptEnvelope E iv1 text ≠ encryptEnvelope E iv2 text := by
  intro he
  apply hne
  have h := congrArg (jsSplit ':') he
  rw [encryptEnvelope, encryptEnvelope,
      jsSplit_append_sep (colon_not_mem_bytesToHex hr1),
      jsSplit_append_sep (colon_not_mem_bytesToHex hr2)] at h
  have hhex : bytesToHex iv1 = bytesToHex iv2 := by
    injection h
  calc iv1 = hexToBytes (bytesToHex iv1) := (hexToBytes_bytesToHex hr1).symm
    _ = hexToBytes (bytesToHex iv2) := by rw [hhex]
    _ = iv2 := hexToBytes_bytesToHex hr2

/-! ### Structural failure cases of `decrypt` -/

theorem decryptCore_bad_iv {D : List Nat → List Nat} {iv : List Nat}
    (ct : List Nat) (h : iv.length ≠ 16) : decryptCore D iv ct = none := by
  rw [decryptCore, if_pos h]

theorem decryptCore_bad_ct {D : List Nat → List Nat} {iv ct : List Nat}
    (h : ct.length = 0 ∨ ct.length % 16 ≠ 0) : decryptCore D iv ct = none := by
  rw [decryptCore]
  by_cases hiv : iv.length ≠ 16
  · rw [if_pos hiv]
  · rw [if_neg hiv, if_pos h]

/-- An envelope without any `:` delimiter never decrypts (Mongo variant:
`parts.join(':')` over the empty tail gives an empty ciphertext, and
`decipher.final()` rejects an empty input). -/
theorem decryptMongo_no_colon {D : List Nat → List Nat} {s : List Char}
    (h : ':' ∉ s) : decryptMongo D s = none := by
  rw [decryptMongo, jsSplit_no_sep h]
  simp only [List.headD_cons, List.tail_cons, joinWith]
  exact decryptCore_bad_ct (Or.inl rfl)

/-- An envelope without any `:` delimiter never decrypts (backup variant:
the destructured second segment is `undefined` and `Buffer.from(undefined,
'hex')` throws). -/
theorem decryptBackup_no_colon {D : List Nat → List Nat} {s : List Char}
    (h : ':' ∉ s) : decryptBackup D s = none := by
  rw [decryptBackup, jsSplit_no_sep h]
  rfl

/-! ### Auxiliary facts about the `blockAdd` cipher family -/

/-- `blockAdd k` is a genuine keyed block permutation: it is inverted by
`blockAdd (256 - k % 256)` on byte strings.  Used to instantiate the
abstract AES block-permutation parameter in witnesses and
counterexamples. -/
theorem blockAdd_inverse (k : Nat) (b : List Nat) (hb : ∀ x ∈ b, x < 256) :
    blockAdd (256 - k % 256) (blockAdd k b) = b := by
  induction b with
  | nil => rfl
  | cons x xs ih =>
    have hx : x < 256 := hb x (by simp)
    simp only [blockAdd, List.map_cons, List.map_map] at *
    rw [ih (fun y hy => hb y (by simp [hy]))]
    congr 1
    omega

/-! ### Store lemmas -/

theorem lookupKey_append {st : Store} {k : String} (a : Account)
    (h : lookupKey st k = none) : lookupKey (st ++ [(k, a)]) k = some a := by
  induction st with
  | nil => simp [lookupKey, List.find?]
  | cons e es ih =>
    by_cases he : (e.1 == k) = true
    · exfalso
      rw [lookupKey] at h
      simp [List.find?, he] at h
    · have he' : (e.1 == k) = false := by simpa using he
      rw [lookupKey] at h ⊢
      rw [List.cons_append]
      simp only [List.find?, he'] at h ⊢
      exact ih h

theorem lookupKey_replaceKey {st : Store} {k : String} {acc : Account}
    (a : Account) (h : lookupKey st k = some acc) :
    lookupKey (replaceKey st k a) k = some a := by
  induction st with
  | nil => simp [lookupKey, List.find?] at h
  | cons e es ih =>
    by_cases he : (e.1 == k) = true
    · rw [replaceKey, List.map_cons, if_pos he, lookupKey]
      simp [List.find?]
    · have he' : (e.1 == k) = false := by simpa using he
      rw [lookupKey] at h
      simp only [List.find?, he'] at h
      rw [replaceKey, List.map_cons, if_neg he, lookupKey]
      simp only [List.find?, he']
      exact ih h

/-- Dissection of the MongoDB creation route: either the request fails and
the store is untouched, or it succeeds, the key was fresh, the required and
validation checks all passed, and the store gains exactly the one new
record. -/
theorem createMongo_spec (vo : List Char → String → Bool)
    (enc : List Char → List Char) (st : Store) (r : ReqBody) :
    ((createMongo vo enc st r).1 ≠ .created ∧ (createMongo vo enc st r).2 = st) ∨
    (createMongo vo enc st r = (.created, st ++ [(r.key, mongoAccount enc r)]) ∧
      lookupKey st r.key = none ∧ r.key ≠ "" ∧ r.secret ≠ [] ∧
      vo r.secret (normalizedAlgorithm r) = true ∧
      schemaValid (mongoAccount enc r) = true) := by
  rw [createMongo]
  by_cases h1 : r.key = "" ∨ r.secret = []
  · rw [if_pos h1]; exact Or.inl ⟨(fun h => nomatch h), rfl⟩
  · rw [if_neg h1]
    by_cases h2 : (lookupKey st r.key).isSome
    · rw [if_pos h2]; exact Or.inl ⟨(fun h => nomatch h), rfl⟩
    · rw [if_neg h2]
      by_cases h3 : ¬ vo r.secret (normalizedAlgorithm r)
      · rw [if_pos h3]; exact Or.inl ⟨(fun h => nomatch h), rfl⟩
      · rw [if_neg h3]
        by_cases h4 : schemaValid (mongoAccount enc r)
        · rw [if_pos h4]
          push_neg at h1 h3
          exact Or.inr ⟨rfl, Option.not_isSome_iff_eq_none.mp h2, h1.1, h1.2,
            h3, h4⟩
        · rw [if_neg h4]; exact Or.inl ⟨(fun h => nomatch h), rfl⟩

/-- Dissection of the backup server's creation route. -/
theorem createBackup_spec (vo2 : List Char → Bool)
    (enc : List Char → List Char) (st : Store) (r : ReqBody) :
    ((createBackup vo2 enc st r).1 ≠ .created ∧ (createBackup vo2 enc st r).2 = st) ∨
    (createBackup vo2 enc st r = (.created, st ++ [(r.key, backupAccount enc r)]) ∧
      lookupKey st r.key = none ∧ r.key ≠ "" ∧ r.secret ≠ [] ∧
      vo2 (normalizeBase32 r.secret) = true) := by
  rw [createBackup]
  by_cases h1 : r.key = "" ∨ r.secret = []
  · rw [if_pos h1]; exact Or.inl ⟨(fun h => nomatch h), rfl⟩
  · rw [if_neg h1]
    by_cases h2 : (lookupKey st r.key).isSome
    · rw [if_pos h2]; exact Or.inl ⟨(fun h => nomatch h), rfl⟩
    · rw [if_neg h2]
      by_cases h3 : ¬ vo2 (normalizeBase32 r.secret)
      · rw [if_pos h3]; exact Or.inl ⟨(fun h => nomatch h), rfl⟩
      · rw [if_neg h3]
        push_neg at h1 h3
        exact Or.inr ⟨rfl, Option.not_isSome_iff_eq_none.mp h2, h1.1, h1.2, h3⟩

theorem updDigits_digits {r : UpdBody} {d : Nat} (a : Account)
    (h : r.digits = some d) (hd : d ≠ 0) : (updDigits r a).digits = d := by
  simp [updDigits, h, hd]

theorem updName_digits (r : UpdBody) (a : Account) :
    (updName r a).digits = a.digits := by
  cases hn : r.name with
  | none => simp [updName, hn]
  | some n => by_cases he : n ≠ "" <;> simp [updName, hn, he]

theorem updPeriod_digits (r : UpdBody) (a : Account) :
    (updPeriod r a).digits = a.digits := by
  cases hn : r.period with
  | none => simp [updPeriod, hn]
  | some p => by_cases he : p ≠ 0 <;> simp [updPeriod, hn, he]

theorem updAlgorithm_digits (r : UpdBody) (a : Account) :
    (updAlgorithm r a).digits = a.digits := by
  cases hn : r.algorithm with
  | none => simp [updAlgorithm, hn]
  | some s => by_cases he : s ≠ "" <;> simp [updAlgorithm, hn, he]

theorem updSecret_digits (enc : List Char → List Char) (r : UpdBody) (a : Account) :
    (updSecret enc r a).digits = a.digits := by
  cases hn : r.secret with
  | none => simp [updSecret, hn]
  | some s => by_cases he : s ≠ [] <;> simp [updSecret, hn, he]

theorem updatedAccount_digits {r : UpdBody} {d : Nat}
    (enc : List Char → List Char) (a0 : Account)
    (h : r.digits = some d) (hd : d ≠ 0) :
    (updatedAccount enc r a0).digits = d := by
  rw [updatedAccount, applySetters]
  simp only [updSecret_digits, updAlgorithm_digits, updPeriod_digits]
  exact updDigits_digits _ h hd

theorem schemaValid_digits {a : Account} (ha : schemaValid a = true) :
    6 ≤ a.digits ∧ a.digits ≤ 8 := by
  rw [schemaValid] at ha
  simp only [Bool.and_eq_true, decide_eq_true_eq] at ha
  exact ⟨ha.1.1.1.1.1.1.1, ha.1.1.1.1.1.1.2⟩

theorem schemaValid_period {a : Account} (ha : schemaValid a = true) :
    15 ≤ a.period ∧ a.period ≤ 60 := by
  rw [schemaValid] at ha
  simp only [Bool.and_eq_true, decide_eq_true_eq] at ha
  exact ⟨ha.1.1.1.1.1.2, ha.1.1.1.1.2⟩

theorem schemaValid_algorithm {a : Account} (ha : schemaValid a = true) :
    a.algorithm = "sha1" ∨ a.algorithm = "sha256" ∨ a.algorithm = "sha512" := by
  rw [schemaValid] at ha
  simp only [Bool.and_eq_true, Bool.or_eq_true, beq_iff_eq] at ha
  rcases ha.1.1.1.2 with (h | h) | h
  · exact Or.inl h
  · exact Or.inr (Or.inl h)
  · exact Or.inr (Or.inr h)

theorem schemaValid_type {a : Account} (ha : schemaValid a = true) :
    a.type = "totp" ∨ a.type = "hotp" := by
  rw [schemaValid] at ha
  simp only [Bool.and_eq_true, Bool.or_eq_true, beq_iff_eq] at ha
  exact ha.1.1.2

theorem toLower_idem (c : Char) : Char.toLower (Char.toLower c) = Char.toLower c := by
  simp only [Char.toLower]
  by_cases h : 65 ≤ c.toNat ∧ c.toNat ≤ 90
  · rw [if_pos h]
    have hn : (Char.ofNat (c.toNat + 32)).toNat = c.toNat + 32 := by
      obtain ⟨h1, h2⟩ := h
      generalize c.toNat = n at h1 h2
      interval_cases n <;> decide
    rw [hn]
    rw [if_neg (by omega)]
  · rw [if_neg h, if_neg h]

theorem jsToLowerS_idem (s : String) : jsToLowerS (jsToLowerS s) = jsToLowerS s := by
  cases s with
  | mk l =>
    simp only [jsToLowerS, jsToLower, List.map_map]
    have : Char.toLower ∘ Char.toLower = Char.toLower := funext toLower_idem
    rw [this]

theorem mongoAccount_digits (enc : List Char → List Char) (r : ReqBody) :
    (mongoAccount enc r).digits = jsOrNat r.digits 6 := rfl

theorem mongoAccount_period (enc : List Char → List Char) (r : ReqBody) :
    (mongoAccount enc r).period = jsOrNat r.period 30 := rfl

theorem mongoAccount_algorithm (enc : List Char → List Char) (r : ReqBody) :
    (mongoAccount enc r).algorithm = jsToLowerS (normalizedAlgorithm r) := rfl

theorem mongoAccount_type (enc : List Char → List Char) (r : ReqBody) :
    (mongoAccount enc r).type = jsToLowerS (jsOrStr r.type "totp") := rfl

/-! ## The claims -/

/-- C8: for every `period ∈ [15, 60]` and every `nowEpochSeconds`, the
reported `timeRemaining` equals `period - (nowEpochSeconds mod period)`,
always lies in `[1, period]`, and equals `period` exactly when
`nowEpochSeconds` is divisible by `period`. -/
theorem c8_time_remaining (period epoch : Nat) (h1 : 15 ≤ period)
    (h2 : period ≤ 60) :
    timeRemaining period epoch = period - epoch % period ∧
    1 ≤ timeRemaining period epoch ∧
    timeRemaining period epoch ≤ period ∧
    (epoch % period = 0 → timeRemaining period epoch = period) := by
  have hpos : 0 < period := by omega
  have hmod : epoch % period < period := Nat.mod_lt _ hpos
  refine ⟨rfl, ?_, ?_, ?_⟩ <;> simp only [timeRemaining] <;> omega

theorem c8_time_remaining_witness :
    timeRemaining 30 59 = 30 - 59 % 30 ∧
    1 ≤ timeRemaining 30 59 ∧ timeRemaining 30 59 ≤ 30 ∧
    (60 % 30 = 0 → timeRemaining 30 60 = 30) := by
  have h59 := c8_time_remaining 30 59 (by decide) (by decide)
  have h60 := c8_time_remaining 30 60 (by decide) (by decide)
  exact ⟨h59.1, h59.2.1, h59.2.2.1, h60.2.2.2⟩

/-- C2: for every non-empty plaintext and each keyed block-permutation pair
`(E, D)` with the inverse/well-formedness contract of AES-256,
`decrypt (encrypt s) = s` through both servers' decrypt variants, and two
encryptions of the same plaintext under distinct fresh IVs produce
different envelopes. -/
theorem c2_roundtrip_and_fresh_nonce (E D : List Nat → List Nat)
    (hinv : ∀ b, b.length = 16 → (∀ x ∈ b, x < 256) → D (E b) = b)
    (hE : ∀ b, b.length = 16 → (∀ x ∈ b, x < 256) →
      (E b).length = 16 ∧ ∀ x ∈ E b, x < 256)
    (iv iv1 iv2 text : List Nat)
    (hivlen : iv.length = 16) (hivr : ∀ x ∈ iv, x < 256)
    (htext : ∀ x ∈ text, x < 256) (_htne : text ≠ [])
    (hr1 : ∀ x ∈ iv1, x < 256) (hr2 : ∀ x ∈ iv2, x < 256)
    (hivne : iv1 ≠ iv2) :
    decryptMongo D (encryptEnvelope E iv text) = some text ∧
    decryptBackup D (encryptEnvelope E iv text) = some text ∧
    encryptEnvelope E iv1 text ≠ encryptEnvelope E iv2 text :=
  ⟨decryptMongo_encryptEnvelope hinv hE iv text hivlen hivr htext,
   decryptBackup_encryptEnvelope hinv hE iv text hivlen hivr htext,
   encryptEnvelope_iv_ne text hr1 hr2 hivne⟩

theorem c2_roundtrip_and_fresh_nonce_witness :
    decryptMongo id (encryptEnvelope id (List.replicate 16 0) [72, 105]) =
      some [72, 105] ∧
    decryptBackup id (encryptEnvelope id (List.replicate 16 0) [72, 105]) =
      some [72, 105] ∧
    encryptEnvelope id (List.replicate 16 0) [72, 105] ≠
      encryptEnvelope id (1 :: List.replicate 15 0) [72, 105] :=
  c2_roundtrip_and_fresh_nonce id id (fun _ _ _ => rfl)
    (fun _ hl hr => ⟨hl, hr⟩)
    (List.replicate 16 0) (List.replicate 16 0) (1 :: List.replicate 15 0)
    [72, 105] (by decide) (by decide) (by decide) (by decide) (by decide)
    (by decide) (by decide)

/-- C3 counterexample: the envelope carries no authentication, so `decrypt`
with a wrong key does not always fail.  Encrypting `[65, …, 65, 1]` under
the `blockAdd` key 0 and decrypting under key 255 (whose decryption
direction is `blockAdd 1`) passes the PKCS#7 padding check and silently
returns the wrong plaintext `[66, …, 66]` through both decrypt variants,
refuting "decrypt with a wrong master key fails with DecryptionFailed". -/
theorem c3_counterexample :
    decryptMongo (blockAdd 1)
        (encryptEnvelope (blockAdd 0) (List.replicate 16 0)
          (List.replicate 14 65 ++ [1])) = some (List.replicate 14 66) ∧
    decryptBackup (blockAdd 1)
        (encryptEnvelope (blockAdd 0) (List.replicate 16 0)
          (List.replicate 14 65 ++ [1])) = some (List.replicate 14 66) ∧
    (List.replicate 14 66 : List Nat) ≠ List.replicate 14 65 ++ [1] :=
  ⟨by decide, by decide, by decide⟩

/-- C3 amended: `decrypt` fails on structurally malformed envelopes — no
delimiter at all, an IV segment that does not hex-decode to exactly 16
bytes (which covers non-hex IV segments, truncated by Node's hex decoder),
or a ciphertext that is empty or not a whole number of blocks — and when
the PKCS#7 padding check fails; when it succeeds, the result is the full
unpadded CBC decryption, never a truncated intermediate.  With a wrong key
it fails only through the padding check and may instead succeed with a
wrong plaintext (see the counterexample): the scheme is unauthenticated. -/
theorem c3_decrypt_failure_modes (D : List Nat → List Nat) (s : List Char)
    (iv ct : List Nat) :
    (':' ∉ s → decryptMongo D s = none ∧ decryptBackup D s = none) ∧
    (iv.length ≠ 16 → decryptCore D iv ct = none) ∧
    (ct.length = 0 ∨ ct.length % 16 ≠ 0 → decryptCore D iv ct = none) ∧
    (∀ pt, decryptCore D iv ct = some pt →
      pkcs7unpad (List.flatten (cbcDec D iv (chunks16 ct))) = some pt) := by
  refine ⟨fun h => ⟨decryptMongo_no_colon h, decryptBackup_no_colon h⟩,
    fun h => decryptCore_bad_iv ct h,
    fun h => decryptCore_bad_ct h, fun pt h => ?_⟩
  rw [decryptCore] at h
  by_cases h1 : iv.length ≠ 16
  · rw [if_pos h1] at h; exact absurd h (by simp)
  · rw [if_neg h1] at h
    by_cases h2 : ct.length = 0 ∨ ct.length % 16 ≠ 0
    · rw [if_pos h2] at h; exact absurd h (by simp)
    · rwa [if_neg h2] at h

theorem c3_decrypt_failure_modes_witness :
    (decryptMongo (blockAdd 0) "abc".toList = none ∧
      decryptBackup (blockAdd 0) "abc".toList = none) ∧
    decryptCore (blockAdd 0) [0] [1] = none ∧
    decryptCore (blockAdd 0) (List.replicate 16 0) [1, 2, 3] = none ∧
    pkcs7unpad (List.flatten (cbcDec (blockAdd 0) (List.replicate 16 0)
      (chunks16 (72 :: List.replicate 15 15)))) = some [72] :=
  ⟨(c3_decrypt_failure_modes (blockAdd 0) "abc".toList [0] [1]).1 (by decide),
   (c3_decrypt_failure_modes (blockAdd 0) "abc".toList [0] [1]).2.1 (by decide),
   (c3_decrypt_failure_modes (blockAdd 0) "x".toList
     (List.replicate 16 0) [1, 2, 3]).2.2.1 (by decide),
   (c3_decrypt_failure_modes (blockAdd 0) "x".toList
     (List.replicate 16 0) (72 :: List.replicate 15 15)).2.2.2 [72] (by decide)⟩

/-- C9 counterexample: in `src/server.js` the key is not derived by a
one-way hash to a fixed length — it is the raw configured string's first 64
characters hex-decoded, so its length depends on the operator input
(a 4-character seed gives a 2-byte key, a 64-character seed a 32-byte
key) — and with no seed configured the key comes from a fresh random draw,
not a fixed fallback (two different draws give two different keys). -/
theorem c9_counterexample :
    (deriveKeyMain (some "aabb".toList) []).length = 2 ∧
    (deriveKeyMain (some (List.replicate 64 'a')) []).length = 32 ∧
    deriveKeyMain none (List.replicate 32 0) ≠
      deriveKeyMain none (List.replicate 32 1) :=
  ⟨by decide, by decide, by decide⟩

/-- C9 amended: the backup server's derivation has the claimed shape — the
key is the one-way hash (SHA-256, external, assumed 32-byte-valued) of the
configured seed, hence fixed-length independently of the operator input,
and with no seed it hashes the fixed fallback string `'dev-secret'`.  The
MongoDB server (`src/server.js`) instead slices and hex-decodes the raw
value with a random fallback, as the counterexample shows. -/
theorem c9_backup_key_derivation (hash : List Char → List Nat)
    (env e1 e2 : Option (List Char))
    (h32 : ∀ s, (hash s).length = 32) :
    (deriveKeyBackup hash env).length = 32 ∧
    deriveKeyBackup hash none = hash "dev-secret".toList ∧
    (deriveKeyBackup hash e1).length = (deriveKeyBackup hash e2).length := by
  exact ⟨h32 _, rfl, (h32 _).trans (h32 _).symm⟩

theorem c9_backup_key_derivation_witness :
    (deriveKeyBackup (fun _ => List.replicate 32 0) (some "seed".toList)).length = 32 ∧
    deriveKeyBackup (fun _ => List.replicate 32 0) none = List.replicate 32 0 ∧
    (deriveKeyBackup (fun _ => List.replicate 32 0) (some "a".toList)).length =
      (deriveKeyBackup (fun _ => List.replicate 32 0) none).length := by
  have h := c9_backup_key_derivation (fun _ => List.replicate 32 0)
    (some "seed".toList) (some "a".toList) none (fun _ => by simp)
  exact ⟨h.1, h.2.1, h.2.2⟩

/-- C5: creating an account whose key is already present fails with
`DuplicateKey` (HTTP 409, `Account already exists`), the failed creation
returns the store unchanged, and the originally created record is still the
one stored under that key — in both the MongoDB server and the backup
server. -/
theorem c5_duplicate_key (vo : List Char → String → Bool)
    (vo2 : List Char → Bool) (enc : List Char → List Char)
    (stM stM' stB stB' : Store) (r rB r' rB' : ReqBody)
    (hM : createMongo vo enc stM r = (.created, stM'))
    (hB : createBackup vo2 enc stB rB = (.created, stB'))
    (hk : r'.key = r.key) (hkB : rB'.key = rB.key)
    (hs : r'.secret ≠ []) (hsB : rB'.secret ≠ []) :
    createMongo vo enc stM' r' = (.conflict, stM') ∧
    createBackup vo2 enc stB' rB' = (.conflict, stB') ∧
    lookupKey stM' r.key = some (mongoAccount enc r) ∧
    lookupKey stB' rB.key = some (backupAccount enc rB) := by
  rcases createMongo_spec vo enc stM r with ⟨hne, _⟩ | ⟨heq, hnone, hkne, _, _, _⟩
  · rw [hM] at hne
    exact absurd rfl hne
  rcases createBackup_spec vo2 enc stB rB with ⟨hneB, _⟩ | ⟨heqB, hnoneB, hkneB, _, _⟩
  · rw [hB] at hneB
    exact absurd rfl hneB
  have hst : stM' = stM ++ [(r.key, mongoAccount enc r)] := by
    rw [hM] at heq
    exact (Prod.mk.injEq _ _ _ _ ▸ heq).2
  have hstB : stB' = stB ++ [(rB.key, backupAccount enc rB)] := by
    rw [hB] at heqB
    exact (Prod.mk.injEq _ _ _ _ ▸ heqB).2
  have hlook : lookupKey stM' r.key = some (mongoAccount enc r) := by
    rw [hst]; exact lookupKey_append _ hnone
  have hlookB : lookupKey stB' rB.key = some (backupAccount enc rB) := by
    rw [hstB]; exact lookupKey_append _ hnoneB
  refine ⟨?_, ?_, hlook, hlookB⟩
  · rw [createMongo, if_neg (by rw [hk]; push_neg; exact ⟨hkne, hs⟩),
      if_pos (by rw [hk, hlook]; rfl)]
  · rw [createBackup, if_neg (by rw [hkB]; push_neg; exact ⟨hkneB, hsB⟩),
      if_pos (by rw [hkB, hlookB]; rfl)]

theorem c5_duplicate_key_witness :
    createMongo (fun _ _ => true) id
      [("a", mongoAccount id
        { key := "a", name := none, secret := "JB".toList, digits := none,
          period := none, algorithm := none, type := none, counter := none,
          encrypt := some false })]
      { key := "a", name := none, secret := "JB".toList, digits := none,
        period := none, algorithm := none, type := none, counter := none,
        encrypt := some false } =
      (.conflict, [("a", mongoAccount id
        { key := "a", name := none, secret := "JB".toList, digits := none,
          period := none, algorithm := none, type := none, counter := none,
          encrypt := some false })]) ∧
    createBackup (fun _ => true) id
      [("b", backupAccount id
        { key := "b", name := none, secret := "JB".toList, digits := none,
          period := none, algorithm := none, type := none, counter := none,
          encrypt := some false })]
      { key := "b", name := none, secret := "JB".toList, digits := none,
        period := none, algorithm := none, type := none, counter := none,
        encrypt := some false } =
      (.conflict, [("b", backupAccount id
        { key := "b", name := none, secret := "JB".toList, digits := none,
          period := none, algorithm := none, type := none, counter := none,
          encrypt := some false })]) ∧
    lookupKey [("a", mongoAccount id
        { key := "a", name := none, secret := "JB".toList, digits := none,
          period := none, algorithm := none, type := none, counter := none,
          encrypt := some false })] "a" =
      some (mongoAccount id
        { key := "a", name := none, secret := "JB".toList, digits := none,
          period := none, algorithm := none, type := none, counter := none,
          encrypt := some false }) ∧
    lookupKey [("b", backupAccount id
        { key := "b", name := none, secret := "JB".toList, digits := none,
          period := none, algorithm := none, type := none, counter := none,
          encrypt := some false })] "b" =
      some (backupAccount id
        { key := "b", name := none, secret := "JB".toList, digits := none,
          period := none, algorithm := none, type := none, counter := none,
          encrypt := some false }) :=
  c5_duplicate_key (fun _ _ => true) (fun _ => true) id [] _ [] _ _ _ _ _
    (by decide) (by decide) rfl rfl (by decide) (by decide)

/-- C6: both creation routes validate that the supplied secret passes the
external base32/token check before anything is persisted; when the check
fails nothing is written and the store is unchanged, and a record is only
ever created after the check has passed. -/
theorem c6_secret_validated_before_persist (vo : List Char → String → Bool)
    (vo2 : List Char → Bool) (enc : List Char → List Char)
    (st stB : Store) (r rB : ReqBody) :
    (vo r.secret (normalizedAlgorithm r) = false →
      (createMongo vo enc st r).1 ≠ .created ∧ (createMongo vo enc st r).2 = st) ∧
    ((createMongo vo enc st r).1 = .created →
      vo r.secret (normalizedAlgorithm r) = true) ∧
    (vo2 (normalizeBase32 rB.secret) = false →
      (createBackup vo2 enc stB rB).1 ≠ .created ∧
      (createBackup vo2 enc stB rB).2 = stB) ∧
    ((createBackup vo2 enc stB rB).1 = .created →
      vo2 (normalizeBase32 rB.secret) = true) := by
  refine ⟨fun hv => ?_, fun hc => ?_, fun hv => ?_, fun hc => ?_⟩
  · rcases createMongo_spec vo enc st r with h | ⟨_, _, _, _, hok, _⟩
    · exact h
    · rw [hok] at hv; exact absurd hv (by decide)
  · rcases createMongo_spec vo enc st r with ⟨hne, _⟩ | ⟨_, _, _, _, hok, _⟩
    · exact absurd hc hne
    · exact hok
  · rcases createBackup_spec vo2 enc stB rB with h | ⟨_, _, _, _, hok⟩
    · exact h
    · rw [hok] at hv; exact absurd hv (by decide)
  · rcases createBackup_spec vo2 enc stB rB with ⟨hne, _⟩ | ⟨_, _, _, _, hok⟩
    · exact absurd hc hne
    · exact hok

theorem c6_secret_validated_before_persist_witness :
    ((createMongo (fun _ _ => false) id []
      { key := "a", name := none, secret := "??".toList, digits := none,
        period := none, algorithm := none, type := none, counter := none,
        encrypt := some false }).1 ≠ .created ∧
     (createMongo (fun _ _ => false) id []
      { key := "a", name := none, secret := "??".toList, digits := none,
        period := none, algorithm := none, type := none, counter := none,
        encrypt := some false }).2 = []) ∧
    (fun _ _ => true : List Char → String → Bool) "JB".toList
      (normalizedAlgorithm
        { key := "a", name := none, secret := "JB".toList, digits := none,
          period := none, algorithm := none, type := none, counter := none,
          encrypt := some false }) = true ∧
    ((createBackup (fun _ => false) id []
      { key := "a", name := none, secret := "??".toList, digits := none,
        period := none, algorithm := none, type := none, counter := none,
        encrypt := some false }).1 ≠ .created ∧
     (createBackup (fun _ => false) id []
      { key := "a", name := none, secret := "??".toList, digits := none,
        period := none, algorithm := none, type := none, counter := none,
        encrypt := some false }).2 = []) ∧
    (fun _ => true : List Char → Bool)
      (normalizeBase32 "JB".toList) = true :=
  ⟨(c6_secret_validated_before_persist (fun _ _ => false) (fun _ => false) id [] []
      { key := "a", name := none, secret := "??".toList, digits := none,
        period := none, algorithm := none, type := none, counter := none,
        encrypt := some false }
      { key := "a", name := none, secret := "??".toList, digits := none,
        period := none, algorithm := none, type := none, counter := none,
        encrypt := some false }).1 rfl,
   (c6_secret_validated_before_persist (fun _ _ => true) (fun _ => true) id [] []
      { key := "a", name := none, secret := "JB".toList, digits := none,
        period := none, algorithm := none, type := none, counter := none,
        encrypt := some false }
      { key := "a", name := none, secret := "JB".toList, digits := none,
        period := none, algorithm := none, type := none, counter := none,
        encrypt := some false }).2.1 (by decide),
   (c6_secret_validated_before_persist (fun _ _ => false) (fun _ => false) id [] []
      { key := "a", name := none, secret := "??".toList, digits := none,
        period := none, algorithm := none, type := none, counter := none,
        encrypt := some false }
      { key := "a", name := none, secret := "??".toList, digits := none,
        period := none, algorithm := none, type := none, counter := none,
        encrypt := some false }).2.2.1 rfl,
   (c6_secret_validated_before_persist (fun _ _ => true) (fun _ => true) id [] []
      { key := "a", name := none, secret := "JB".toList, digits := none,
        period := none, algorithm := none, type := none, counter := none,
        encrypt := some false }
      { key := "a", name := none, secret := "JB".toList, digits := none,
        period := none, algorithm := none, type := none, counter := none,
        encrypt := some false }).2.2.2 (by decide)⟩

/-- C4 counterexample: the backup server's creation route performs no
parameter validation at all — a request with `digits = 99` and
`period = 5` (both far outside the documented ranges) is accepted with 201
and the record is stored with exactly those values. -/
theorem c4_counterexample :
    (createBackup (fun _ => true) id []
      { key := "x", name := none, secret := "JBSWY3DP".toList,
        digits := some 99, period := some 5, algorithm := none,
        type := none, counter := none, encrypt := some false }).1 = .created ∧
    (lookupKey (createBackup (fun _ => true) id []
      { key := "x", name := none, secret := "JBSWY3DP".toList,
        digits := some 99, period := some 5, algorithm := none,
        type := none, counter := none, encrypt := some false }).2 "x").map
      Account.digits = some 99 ∧
    (lookupKey (createBackup (fun _ => true) id []
      { key := "x", name := none, secret := "JBSWY3DP".toList,
        digits := some 99, period := some 5, algorithm := none,
        type := none, counter := none, encrypt := some false }).2 "x").map
      Account.period = some 5 :=
  ⟨by decide, by decide, by decide⟩

/-- C4 amended: in the MongoDB server, creation and update requests whose
(non-zero) `digits`/`period` fall outside `[6, 8]`/`[15, 60]`, or whose
(non-empty) `algorithm`/`type` lowercase to something outside the schema
enums, are rejected by the mongoose validation at `save()` (surfaced as a
500, the spec's `InvalidAccountParameters`), leave the store unchanged, and
are never clamped — a successful creation stores exactly the requested
non-zero `digits`, while a request with `digits: 0` is treated as absent by
the JS `||`-default (`digits || 6`) and stored as `6`.  The backup server's
creation route performs no validation at all and stores the request values
verbatim: out-of-range values (see the counterexample) and also a literal
`digits: 0`, since its destructuring defaults fire only on absent fields. -/
theorem c4_parameter_validation (vo : List Char → String → Bool)
    (vo2 : List Char → Bool)
    (enc : List Char → List Char) (st : Store) (r : ReqBody) (k : String)
    (u : UpdBody) :
    (∀ d, r.digits = some d → d ≠ 0 → d < 6 ∨ 8 < d →
      (createMongo vo enc st r).1 ≠ .created ∧ (createMongo vo enc st r).2 = st) ∧
    (∀ p, r.period = some p → p ≠ 0 → p < 15 ∨ 60 < p →
      (createMongo vo enc st r).1 ≠ .created ∧ (createMongo vo enc st r).2 = st) ∧
    (∀ s, r.algorithm = some s → s ≠ "" → jsToLowerS s ≠ "sha1" →
      jsToLowerS s ≠ "sha256" → jsToLowerS s ≠ "sha512" →
      (createMongo vo enc st r).1 ≠ .created ∧ (createMongo vo enc st r).2 = st) ∧
    (∀ t, r.type = some t → t ≠ "" → jsToLowerS t ≠ "totp" →
      jsToLowerS t ≠ "hotp" →
      (createMongo vo enc st r).1 ≠ .created ∧ (createMongo vo enc st r).2 = st) ∧
    (∀ d, u.digits = some d → d ≠ 0 → d < 6 ∨ 8 < d →
      (updateMongo enc st k u).1 ≠ .ok ∧ (updateMongo enc st k u).2 = st) ∧
    (∀ d st2, r.digits = some d → d ≠ 0 → createMongo vo enc st r = (.created, st2) →
      (lookupKey st2 r.key).map Account.digits = some d) ∧
    (∀ st2, r.digits = some 0 → createMongo vo enc st r = (.created, st2) →
      (lookupKey st2 r.key).map Account.digits = some 6) ∧
    (∀ st2, r.digits = some 0 → createBackup vo2 enc st r = (.created, st2) →
      (lookupKey st2 r.key).map Account.digits = some 0) := by
  have hdig : ∀ d, r.digits = some d → d ≠ 0 → (mongoAccount enc r).digits = d := by
    intro d hd hdne
    rw [mongoAccount_digits, hd]
    simp [jsOrNat, hdne]
  refine ⟨fun d hd hdne hrange => ?_, fun p hp hpne hrange => ?_,
    fun s hs hsne h1 h2 h3 => ?_, fun t ht htne h1 h2 => ?_,
    fun d hd hdne hrange => ?_, fun d st2 hd hdne hcr => ?_,
    fun st2 hd0 hcr => ?_, fun st2 hd0 hcr => ?_⟩
  · rcases createMongo_spec vo enc st r with h | ⟨_, _, _, _, _, hsv⟩
    · exact h
    · exfalso
      have := schemaValid_digits hsv
      rw [hdig d hd hdne] at this
      omega
  · rcases createMongo_spec vo enc st r with h | ⟨_, _, _, _, _, hsv⟩
    · exact h
    · exfalso
      have := schemaValid_period hsv
      rw [mongoAccount_period, hp] at this
      simp [jsOrNat, hpne] at this
      omega
  · rcases createMongo_spec vo enc st r with h | ⟨_, _, _, _, _, hsv⟩
    · exact h
    · exfalso
      have halg := schemaValid_algorithm hsv
      rw [mongoAccount_algorithm] at halg
      have hna : normalizedAlgorithm r = jsToLowerS s := by
        rw [normalizedAlgorithm, hs]
        simp [jsOrStr, hsne]
      rw [hna, jsToLowerS_idem] at halg
      rcases halg with h | h | h
      · exact h1 h
      · exact h2 h
      · exact h3 h
  · rcases createMongo_spec vo enc st r with h | ⟨_, _, _, _, _, hsv⟩
    · exact h
    · exfalso
      have hty := schemaValid_type hsv
      rw [mongoAccount_type, ht] at hty
      have : jsOrStr (some t) "totp" = t := by simp [jsOrStr, htne]
      rw [this] at hty
      rcases hty with h | h
      · exact h1 h
      · exact h2 h
  · cases hl : lookupKey st k with
    | none => simp [updateMongo, hl]
    | some a0 =>
      by_cases hv : schemaValid (updatedAccount enc u a0)
      · exfalso
        have := schemaValid_digits hv
        rw [updatedAccount_digits enc a0 hd hdne] at this
        omega
      · simp [updateMongo, hl, hv]
  · rcases createMongo_spec vo enc st r with ⟨hne, _⟩ | ⟨heq, hnone, _, _, _, _⟩
    · rw [hcr] at hne
      exact absurd rfl hne
    · have hst : st2 = st ++ [(r.key, mongoAccount enc r)] := by
        rw [hcr] at heq
        exact (Prod.mk.injEq _ _ _ _ ▸ heq).2
      rw [hst, lookupKey_append _ hnone, Option.map_some']
      rw [hdig d hd hdne]
  · rcases createMongo_spec vo enc st r with ⟨hne, _⟩ | ⟨heq, hnone, _, _, _, _⟩
    · rw [hcr] at hne
      exact absurd rfl hne
    · have hst : st2 = st ++ [(r.key, mongoAccount enc r)] := by
        rw [hcr] at heq
        exact (Prod.mk.injEq _ _ _ _ ▸ heq).2
      rw [hst, lookupKey_append _ hnone, Option.map_some', mongoAccount_digits,
        hd0]
      simp [jsOrNat]
  · rcases createBackup_spec vo2 enc st r with ⟨hne, _⟩ | ⟨heq, hnone, _, _, _⟩
    · rw [hcr] at hne
      exact absurd rfl hne
    · have hst : st2 = st ++ [(r.key, backupAccount enc r)] := by
        rw [hcr] at heq
        exact (Prod.mk.injEq _ _ _ _ ▸ heq).2
      rw [hst, lookupKey_append _ hnone, Option.map_some']
      show some (r.digits.getD 6) = some 0
      rw [hd0]
      rfl

theorem c4_parameter_validation_witness :
    ((createMongo (fun _ _ => true) id []
      { key := "a", name := none, secret := "JB".toList, digits := some 99,
        period := none, algorithm := none, type := none, counter := none,
        encrypt := some false }).1 ≠ .created ∧
     (createMongo (fun _ _ => true) id []
      { key := "a", name := none, secret := "JB".toList, digits := some 99,
        period := none, algorithm := none, type := none, counter := none,
        encrypt := some false }).2 = []) ∧
    ((updateMongo id
      [("a", { name := "a", secret := "JB".toList, encrypted := false,
               digits := 6, period := 30, algorithm := "sha1",
               type := "totp", counter := some 0 })] "a"
      { name := none, secret := none, digits := some 99, period := none,
        algorithm := none, encrypt := none }).1 ≠ .ok ∧
     (updateMongo id
      [("a", { name := "a", secret := "JB".toList, encrypted := false,
               digits := 6, period := 30, algorithm := "sha1",
               type := "totp", counter := some 0 })] "a"
      { name := none, secret := none, digits := some 99, period := none,
        algorithm := none, encrypt := none }).2 =
      [("a", { name := "a", secret := "JB".toList, encrypted := false,
               digits := 6, period := 30, algorithm := "sha1",
               type := "totp", counter := some 0 })]) ∧
    (lookupKey (createMongo (fun _ _ => true) id []
      { key := "a", name := none, secret := "JB".toList, digits := some 7,
        period := none, algorithm := none, type := none, counter := none,
        encrypt := some false }).2 "a").map Account.digits = some 7 ∧
    (lookupKey (createMongo (fun _ _ => true) id []
      { key := "a", name := none, secret := "JB".toList, digits := some 0,
        period := none, algorithm := none, type := none, counter := none,
        encrypt := some false }).2 "a").map Account.digits = some 6 ∧
    (lookupKey (createBackup (fun _ => true) id []
      { key := "a", name := none, secret := "JB".toList, digits := some 0,
        period := none, algorithm := none, type := none, counter := none,
        encrypt := some false }).2 "a").map Account.digits = some 0 := by
  refine ⟨(c4_parameter_validation (fun _ _ => true) (fun _ => true) id []
      { key := "a", name := none, secret := "JB".toList, digits := some 99,
        period := none, algorithm := none, type := none, counter := none,
        encrypt := some false } "a"
      { name := none, secret := none, digits := some 99, period := none,
        algorithm := none, encrypt := none }).1 99 rfl (by decide) (by decide),
    (c4_parameter_validation (fun _ _ => true) (fun _ => true) id
      [("a", { name := "a", secret := "JB".toList, encrypted := false,
               digits := 6, period := 30, algorithm := "sha1",
               type := "totp", counter := some 0 })]
      { key := "a", name := none, secret := "JB".toList, digits := some 99,
        period := none, algorithm := none, type := none, counter := none,
        encrypt := some false } "a"
      { name := none, secret := none, digits := some 99, period := none,
        algorithm := none, encrypt := none }).2.2.2.2.1 99 rfl (by decide)
      (by decide),
    (c4_parameter_validation (fun _ _ => true) (fun _ => true) id []
      { key := "a", name := none, secret := "JB".toList, digits := some 7,
        period := none, algorithm := none, type := none, counter := none,
        encrypt := some false } "a"
      { name := none, secret := none, digits := none, period := none,
        algorithm := none, encrypt := none }).2.2.2.2.2.1 7 _ rfl (by decide)
      (by decide),
    (c4_parameter_validation (fun _ _ => true) (fun _ => true) id []
      { key := "a", name := none, secret := "JB".toList, digits := some 0,
        period := none, algorithm := none, type := none, counter := none,
        encrypt := some false } "a"
      { name := none, secret := none, digits := none, period := none,
        algorithm := none, encrypt := none }).2.2.2.2.2.2.1 _ rfl (by decide),
    (c4_parameter_validation (fun _ _ => true) (fun _ => true) id []
      { key := "a", name := none, secret := "JB".toList, digits := some 0,
        period := none, algorithm := none, type := none, counter := none,
        encrypt := some false } "a"
      { name := none, secret := none, digits := none, period := none,
        algorithm := none, encrypt := none }).2.2.2.2.2.2.2 _ rfl (by decide)⟩

/-! ### `generateOTP` lemmas -/

/-- A successful `generateOTP` on an HOTP account returns the account with
its counter advanced by exactly one and nothing else changed: the increment
is inside the issuance itself. -/
theorem generateOTP_hotp {env : OtpEnv} {acc : Account} {r : OtpResult}
    {acc' : Account} (ht : acc.type = "hotp")
    (h : generateOTP env acc = some (r, acc')) :
    acc' = { acc with counter := some (acc.counter.getD 0 + 1) } ∧
    r.type = "hotp" := by
  rw [generateOTP] at h
  cases hdec : (if acc.encrypted then env.dec acc.secret else some acc.secret) with
  | none => rw [hdec] at h; simp at h
  | some s0 =>
    rw [hdec] at h
    simp only [Option.some_bind] at h
    rw [if_pos ht] at h
    cases htok : env.hotp (normalizeBase32 s0) (acc.counter.getD 0) acc.digits with
    | none => rw [htok] at h; simp at h
    | some tok =>
      rw [htok] at h
      simp only [Option.map_some', Option.some.injEq, Prod.mk.injEq] at h
      obtain ⟨h1, h2⟩ := h
      exact ⟨h2.symm, by rw [← h1]⟩

theorem iterIssue_counter {env : OtpEnv} :
    ∀ (n : Nat) (acc acc' : Account), acc.type = "hotp" →
      iterIssue env n acc = some acc' →
      acc'.counter.getD 0 = acc.counter.getD 0 + n ∧ acc'.type = "hotp" := by
  intro n
  induction n with
  | zero =>
    intro acc acc' ht h
    rw [iterIssue] at h
    simp only [Option.some.injEq] at h
    subst h
    exact ⟨rfl, ht⟩
  | succ k ih =>
    intro acc acc' ht h
    rw [iterIssue] at h
    cases hg : generateOTP env acc with
    | none => rw [hg] at h; simp at h
    | some ra =>
      obtain ⟨r1, a1⟩ := ra
      rw [hg] at h
      simp only [Option.some_bind] at h
      obtain ⟨hacc, _⟩ := generateOTP_hotp ht hg
      have ht1 : a1.type = "hotp" := by rw [hacc]; exact ht
      obtain ⟨hc, ht'⟩ := ih a1 acc' ht1 h
      have hca : a1.counter = some (acc.counter.getD 0 + 1) := by rw [hacc]
      rw [hca] at hc
      simp only [Option.getD_some] at hc
      exact ⟨by omega, ht'⟩

/-! ## Claims C1 and C10 -/

/-- C1: in the backup server's `generateOTP`, each successful HOTP issuance
carries the counter increment inside the issuance itself (the returned
account is the input with `counter := counter + 1` and nothing else
changed), and `n` successful issuances advance the counter by exactly `n`.
But in `src/server.js`, the issuance route `GET /api/code/:accountKey`
computes a TOTP token for an account of type `hotp` and returns the store
unchanged — the stored counter 5 is still 5 after a successful issuance,
contradicting the claim on the MongoDB server (a code bug: the schema
declares `hotp` accounts and a counter, yet the route never advances
it). -/
theorem c1_hotp_counter_issuance :
    (∀ (env : OtpEnv) (acc : Account) (r : OtpResult) (acc' : Account),
      acc.type = "hotp" → generateOTP env acc = some (r, acc') →
      acc' = { acc with counter := some (acc.counter.getD 0 + 1) } ∧
      r.type = "hotp") ∧
    (∀ (env : OtpEnv) (n : Nat) (acc acc' : Account), acc.type = "hotp" →
      iterIssue env n acc = some acc' →
      acc'.counter.getD 0 = acc.counter.getD 0 + n) ∧
    ((serverGetCode
        { dec := some, hotp := fun _ _ _ => none,
          totp := fun _ _ _ _ _ => some ['1'], now := 0 }
        [("gh", { name := "GH", secret := "JB".toList, encrypted := false,
                  digits := 6, period := 30, algorithm := "sha1",
                  type := "hotp", counter := some 5 })] "gh").2 =
      [("gh", { name := "GH", secret := "JB".toList, encrypted := false,
                digits := 6, period := 30, algorithm := "sha1",
                type := "hotp", counter := some 5 })] ∧
      ((serverGetCode
        { dec := some, hotp := fun _ _ _ => none,
          totp := fun _ _ _ _ _ => some ['1'], now := 0 }
        [("gh", { name := "GH", secret := "JB".toList, encrypted := false,
                  digits := 6, period := 30, algorithm := "sha1",
                  type := "hotp", counter := some 5 })] "gh").1).isSome = true) :=
  ⟨fun _ _ _ _ ht h => generateOTP_hotp ht h,
   fun _ n acc acc' ht h => (iterIssue_counter n acc acc' ht h).1,
   by decide, by decide⟩

theorem c1_hotp_counter_issuance_witness :
    ({ name := "GH", secret := "JB".toList, encrypted := false, digits := 6,
       period := 30, algorithm := "sha1", type := "hotp",
       counter := some 6 } : Account) =
      { ({ name := "GH", secret := "JB".toList, encrypted := false,
           digits := 6, period := 30, algorithm := "sha1", type := "hotp",
           counter := some 5 } : Account) with counter := some 6 } ∧
    (({ name := "GH", secret := "JB".toList, encrypted := false, digits := 6,
        period := 30, algorithm := "sha1", type := "hotp",
        counter := some 8 } : Account).counter.getD 0 = 5 + 3) := by
  have h1 := c1_hotp_counter_issuance.1
    { dec := some, hotp := fun _ _ _ => some ['7'],
      totp := fun _ _ _ _ _ => none, now := 0 }
    { name := "GH", secret := "JB".toList, encrypted := false, digits := 6,
      period := 30, algorithm := "sha1", type := "hotp", counter := some 5 }
    { code := ['7'], type := "hotp", timeRemaining := none }
    { name := "GH", secret := "JB".toList, encrypted := false, digits := 6,
      period := 30, algorithm := "sha1", type := "hotp", counter := some 6 }
    rfl (by decide)
  have h2 := c1_hotp_counter_issuance.2.1
    { dec := some, hotp := fun _ _ _ => some ['7'],
      totp := fun _ _ _ _ _ => none, now := 0 } 3
    { name := "GH", secret := "JB".toList, encrypted := false, digits := 6,
      period := 30, algorithm := "sha1", type := "hotp", counter := some 5 }
    { name := "GH", secret := "JB".toList, encrypted := false, digits := 6,
      period := 30, algorithm := "sha1", type := "hotp", counter := some 8 }
    rfl (by decide)
  exact ⟨h1.1, h2⟩

/-- C10: the backup server's batch listing `GET /api/codes` and debug
endpoint `GET /api/debug/:key` both go through the same `generateOTP` as
single-code issuance, so each successfully processed HOTP account comes out
of a batch read with its stored counter advanced by one, and a debug read
persists the advanced counter back into the store under the same key. -/
theorem c10_batch_and_debug_advance_counters (env : OtpEnv) (st : Store)
    (k : String) :
    (∀ (i : Nat) (h : i < st.length) (r : OtpResult) (a' : Account),
      generateOTP env (st.get ⟨i, h⟩).2 = some (r, a') →
      (getAllCodes env st).2[i]? = some ((st.get ⟨i, h⟩).1, a')) ∧
    (∀ (i : Nat) (h : i < st.length) (r : OtpResult) (a' : Account),
      (st.get ⟨i, h⟩).2.type = "hotp" →
      generateOTP env (st.get ⟨i, h⟩).2 = some (r, a') →
      a'.counter = some ((st.get ⟨i, h⟩).2.counter.getD 0 + 1)) ∧
    (∀ (acc : Account) (s0 : List Char) (r : OtpResult) (a' : Account),
      lookupKey st k = some acc → acc.type = "hotp" →
      (if acc.encrypted then env.dec acc.secret else some acc.secret) = some s0 →
      generateOTP env acc = some (r, a') →
      (debugGet env st k).2 = replaceKey st k a' ∧
      lookupKey (debugGet env st k).2 k = some a' ∧
      a'.counter = some (acc.counter.getD 0 + 1)) := by
  refine ⟨fun i h r a' hg => ?_, fun i h r a' ht hg => ?_,
    fun acc s0 r a' hl ht hs0 hg => ?_⟩
  · have : (getAllCodes env st).2 = st.map (fun e => (issueEntry env e).2) := by
      rw [getAllCodes]
      simp [List.map_map]
    rw [this, List.getElem?_map, List.getElem?_eq_getElem h]
    simp only [Option.map_some']
    rw [show st[i] = st.get ⟨i, h⟩ from rfl, issueEntry, hg]
  · have := generateOTP_hotp ht hg
    rw [this.1]
  · have hupd : (debugGet env st k).2 = replaceKey st k a' := by
      simp only [debugGet, hl, hs0, hg]
    refine ⟨hupd, ?_, (generateOTP_hotp ht hg).1 ▸ rfl⟩
    rw [hupd]
    exact lookupKey_replaceKey a' hl

theorem c10_batch_and_debug_advance_counters_witness :
    (getAllCodes
      { dec := some, hotp := fun _ _ _ => some ['7'],
        totp := fun _ _ _ _ _ => some ['8'], now := 0 }
      [("h1", { name := "H", secret := "JB".toList, encrypted := false,
                digits := 6, period := 30, algorithm := "sha1",
                type := "hotp", counter := none })]).2[0]? =
      some ("h1", { name := "H", secret := "JB".toList, encrypted := false,
                    digits := 6, period := 30, algorithm := "sha1",
                    type := "hotp", counter := some 1 }) ∧
    (debugGet
      { dec := some, hotp := fun _ _ _ => some ['7'],
        totp := fun _ _ _ _ _ => some ['8'], now := 0 }
      [("h1", { name := "H", secret := "JB".toList, encrypted := false,
                digits := 6, period := 30, algorithm := "sha1",
                type := "hotp", counter := none })] "h1").2 =
      replaceKey
        [("h1", { name := "H", secret := "JB".toList, encrypted := false,
                  digits := 6, period := 30, algorithm := "sha1",
                  type := "hotp", counter := none })] "h1"
        { name := "H", secret := "JB".toList, encrypted := false,
          digits := 6, period := 30, algorithm := "sha1",
          type := "hotp", counter := some 1 } := by
  have h := c10_batch_and_debug_advance_counters
    { dec := some, hotp := fun _ _ _ => some ['7'],
      totp := fun _ _ _ _ _ => some ['8'], now := 0 }
    [("h1", { name := "H", secret := "JB".toList, encrypted := false,
              digits := 6, period := 30, algorithm := "sha1",
              type := "hotp", counter := none })] "h1"
  refine ⟨h.1 0 (by decide) { code := ['7'], type := "hotp", timeRemaining := none }
      { name := "H", secret := "JB".toList, encrypted := false, digits := 6,
        period := 30, algorithm := "sha1", type := "hotp", counter := some 1 }
      (by decide),
    (h.2.2
      { name := "H", secret := "JB".toList, encrypted := false,
        digits := 6, period := 30, algorithm := "sha1", type := "hotp",
        counter := none }
      "JB".toList
      { code := ['7'], type := "hotp", timeRemaining := none }
      { name := "H", secret := "JB".toList, encrypted := false, digits := 6,
        period := 30, algorithm := "sha1", type := "hotp", counter := some 1 }
      (by decide) rfl (by decide) (by decide)).1⟩

theorem plainChar_ne {c : Char} (h : plainChar c = true) :
    c ≠ '%' ∧ c ≠ '+' ∧ c ≠ '=' ∧ c ≠ '&' ∧ c ≠ ':' ∧ c ≠ '/' ∧
    c ≠ '?' ∧ c ≠ '#' := by
  refine ⟨?_, ?_, ?_, ?_, ?_, ?_, ?_, ?_⟩ <;>
    (intro he; subst he; revert h; decide)

theorem plainChar_not_hostEnd {c : Char} (h : plainChar c = true) :
    hostEnd c = false := by
  obtain ⟨_, _, _, _, _, h6, h7, h8⟩ := plainChar_ne h
  simp [hostEnd, h6, h7, h8]

theorem plainChar_not_pathEnd {c : Char} (h : plainChar c = true) :
    pathEnd c = false := by
  obtain ⟨_, _, _, _, _, _, h7, h8⟩ := plainChar_ne h
  simp [pathEnd, h7, h8]

theorem takeWhile_all {p : Char → Bool} :
    ∀ {xs : List Char}, (∀ x ∈ xs, p x = true) → xs.takeWhile p = xs := by
  intro xs
  induction xs with
  | nil => intro _; rfl
  | cons c cs ih =>
    intro h
    simp [List.takeWhile_cons, h c (by simp), ih (fun x hx => h x (by simp [hx]))]

theorem dropWhile_all {p : Char → Bool} :
    ∀ {xs : List Char}, (∀ x ∈ xs, p x = true) → xs.dropWhile p = [] := by
  intro xs
  induction xs with
  | nil => intro _; rfl
  | cons c cs ih =>
    intro h
    rw [List.dropWhile_cons, h c (by simp)]
    simp only [if_true]
    exact ih (fun x hx => h x (by simp [hx]))

theorem takeWhile_append_stop {p : Char → Bool} {xs : List Char} {y : Char}
    (ys : List Char) (hxs : ∀ x ∈ xs, p x = true) (hy : p y = false) :
    (xs ++ y :: ys).takeWhile p = xs := by
  induction xs with
  | nil => simp [List.takeWhile_cons, hy]
  | cons c cs ih =>
    rw [List.cons_append, List.takeWhile_cons, hxs c (by simp)]
    simp only [if_true]
    rw [ih (fun x hx => hxs x (by simp [hx]))]

theorem dropWhile_append_stop {p : Char → Bool} {xs : List Char} {y : Char}
    (ys : List Char) (hxs : ∀ x ∈ xs, p x = true) (hy : p y = false) :
    (xs ++ y :: ys).dropWhile p = y :: ys := by
  induction xs with
  | nil => simp [List.dropWhile_cons, hy]
  | cons c cs ih =>
    rw [List.cons_append, List.dropWhile_cons, hxs c (by simp)]
    simp only [if_true]
    exact ih (fun x hx => hxs x (by simp [hx]))

theorem listStartsWith_append (p r : List Char) :
    listStartsWith p (p ++ r) = true := by
  induction p with
  | nil =>
    cases r with
    | nil => rfl
    | cons c cs => rfl
  | cons c cs ih => simp [listStartsWith, ih]

theorem afterScheme_append (r : List Char) :
    afterScheme ("otpauth://".toList ++ r) = r := by
  have h : ("otpauth://".toList).length = 10 := rfl
  rw [afterScheme, ← h, List.drop_left]

theorem contains_append_colon (xs ys : List Char) :
    (xs ++ ':' :: ys).contains ':' = true := by
  induction xs with
  | nil => simp
  | cons c cs ih => simp [ih]

theorem contains_colon_false {xs : List Char}
    (h : ∀ x ∈ xs, plainChar x = true) : xs.contains ':' = false := by
  induction xs with
  | nil => rfl
  | cons c cs ih =>
    have hc := (plainChar_ne (h c (by simp))).2.2.2.2.1
    simp only [List.contains_cons, Bool.or_eq_false_iff]
    exact ⟨by simp [Ne.symm hc], ih (fun x hx => h x (by simp [hx]))⟩

theorem percentDecode_plain {s : List Char} (h : ∀ c ∈ s, ¬ c = '%') :
    percentDecode s = some s := by
  induction s with
  | nil => rfl
  | cons c cs ih =>
    have hc : ¬ c = '%' := h c (by simp)
    have hrec : percentDecode cs = some cs :=
      ih (fun x hx => h x (by simp [hx]))
    cases cs with
    | nil =>
      rw [percentDecode.eq_3 c [] (fun _ _ _ hx => List.noConfusion hx),
        if_neg hc, hrec]
      rfl
    | cons c1 cs1 =>
      cases cs1 with
      | nil =>
        rw [percentDecode.eq_3 c [c1]
            (fun _ _ _ hx => List.noConfusion (List.cons.inj hx).2),
          if_neg hc, hrec]
        rfl
      | cons c2 cs2 =>
        rw [percentDecode.eq_2, if_neg hc, hrec]
        rfl

theorem formDecodeAux_plain :
    ∀ (f : Nat) (s : List Char), (∀ c ∈ s, ¬ c = '%' ∧ ¬ c = '+') →
      formDecodeAux f s = s := by
  intro f
  induction f with
  | zero => intro s _; rfl
  | succ k ih =>
    intro s h
    cases s with
    | nil => rfl
    | cons c cs =>
      obtain ⟨hc1, hc2⟩ := h c (by simp)
      have hrec : formDecodeAux k cs = cs :=
        ih cs (fun x hx => h x (by simp [hx]))
      cases cs with
      | nil =>
        rw [formDecodeAux.eq_4 k c [] (fun _ _ _ hx => List.noConfusion hx),
          if_neg hc2, if_neg hc1, hrec]
      | cons d ds =>
        cases ds with
        | nil =>
          rw [formDecodeAux.eq_4 k c [d]
              (fun _ _ _ hx => List.noConfusion (List.cons.inj hx).2),
            if_neg hc2, if_neg hc1, hrec]
        | cons d2 ds2 =>
          rw [formDecodeAux.eq_3, if_neg hc2, if_neg hc1, hrec]

theorem formDecode_plain {s : List Char} (h : ∀ c ∈ s, ¬ c = '%' ∧ ¬ c = '+') :
    formDecode s = s :=
  formDecodeAux_plain s.length s h

theorem queryPairs_single {nm v : List Char}
    (hn : ∀ c ∈ nm, plainChar c = true) (hv : ∀ c ∈ v, plainChar c = true) :
    queryPairs (nm ++ '=' :: v) = [(nm, v)] := by
  have hsplit : jsSplit '&' (nm ++ '=' :: v) = [nm ++ '=' :: v] := by
    apply jsSplit_no_sep
    intro hmem
    rcases List.mem_append.mp hmem with hmem | hmem
    · exact (plainChar_ne (hn _ hmem)).2.2.2.1 rfl
    · rcases List.mem_cons.mp hmem with hmem | hmem
      · exact absurd hmem.symm (by decide)
      · exact (plainChar_ne (hv _ hmem)).2.2.2.1 rfl
  rw [queryPairs, hsplit]
  have hne : (nm ++ '=' :: v).isEmpty = false := by
    cases nm <;> rfl
  rw [List.filter_cons]
  simp only [hne, Bool.not_false, if_true, List.filter_nil, List.map_cons,
    List.map_nil]
  have htake : (nm ++ '=' :: v).takeWhile (fun c => !(c == '=')) = nm :=
    takeWhile_append_stop v
      (fun x hx => by simp [(plainChar_ne (hn x hx)).2.2.1]) (by decide)
  have hdrop : (nm ++ '=' :: v).dropWhile (fun c => !(c == '=')) = '=' :: v :=
    dropWhile_append_stop v
      (fun x hx => by simp [(plainChar_ne (hn x hx)).2.2.1]) (by decide)
  rw [pairOfSegment, htake, hdrop]
  simp only [List.drop_succ_cons, List.drop_zero]
  rw [formDecode_plain (fun c hc =>
      ⟨(plainChar_ne (hn c hc)).1, (plainChar_ne (hn c hc)).2.1⟩),
    formDecode_plain (fun c hc =>
      ⟨(plainChar_ne (hv c hc)).1, (plainChar_ne (hv c hc)).2.1⟩)]

theorem qget_single {q nm v : List Char} (h : queryPairs q = [(nm, v)]) :
    qget q nm = some v := by
  rw [qget, h]
  simp [List.find?]

theorem qget_single_other {q nm v nm' : List Char}
    (h : queryPairs q = [(nm, v)]) (hne : nm ≠ nm') : qget q nm' = none := by
  rw [qget, h]
  have : (nm == nm') = false := by simp [hne]
  simp [List.find?, this]

/-- Full behaviour of `parseOTPAuth` on a well-formed
`otpauth://totp/{label}?secret={sec}` URI whose label contains only benign
characters and colons and whose secret is benign and non-empty: the secret
is extracted, the issuer is `label.split(':')[0]` (the explicit `issuer`
parameter being absent), the account name is `label.split(':')[1]` when the
label contains a colon and the whole label otherwise, and the remaining
fields take their documented defaults. -/
theorem parseOTPAuth_query (label sec : List Char)
    (hlab : ∀ c ∈ label, plainChar c = true ∨ c = ':')
    (hsec : ∀ c ∈ sec, plainChar c = true) (hsecne : sec ≠ []) :
    parseOTPAuth (otpURI "totp".toList label (secretQuery sec)) =
      .ok { secret := sec
            issuer := (jsSplit ':' label).headD []
            accountName :=
              if label.contains ':' then (jsSplit ':' label).getD 1 []
              else label
            type := "totp".toList
            algorithm := "sha1".toList
            digits := some 6
            period := some 30
            counter := none } := by
  have hlabpath : ∀ x ∈ label, (!pathEnd x) = true := by
    intro x hx
    rcases hlab x hx with h | h
    · simp [plainChar_not_pathEnd h]
    · subst h; decide
  have hslash : ∀ x ∈ '/' :: label, (!pathEnd x) = true := by
    intro x hx
    rcases List.mem_cons.mp hx with hx | hx
    · subst hx; decide
    · exact hlabpath x hx
  have hA : afterScheme (otpURI "totp".toList label (secretQuery sec)) =
      "totp".toList ++ ('/' :: (label ++ ('?' :: secretQuery sec))) :=
    afterScheme_append _
  have hhost : rawHost (otpURI "totp".toList label (secretQuery sec)) =
      "totp".toList := by
    rw [rawHost, hA]
    apply takeWhile_append_stop
    · decide
    · decide
  have hafter : afterHost (otpURI "totp".toList label (secretQuery sec)) =
      '/' :: (label ++ ('?' :: secretQuery sec)) := by
    rw [afterHost, hA]
    apply dropWhile_append_stop
    · decide
    · decide
  have hpath : rawPath (otpURI "totp".toList label (secretQuery sec)) =
      '/' :: label := by
    rw [rawPath, hafter, ← List.cons_append]
    apply takeWhile_append_stop
    · exact hslash
    · decide
  have hquery : rawQuery (otpURI "totp".toList label (secretQuery sec)) =
      secretQuery sec := by
    rw [rawQuery, hafter, ← List.cons_append]
    rw [dropWhile_append_stop _ hslash (by decide)]
    apply takeWhile_all
    have hs6 : ∀ x : Char, x ∈ "secret".toList → (!(x == '#')) = true := by
      decide
    intro x hx
    rcases List.mem_append.mp hx with hx | hx
    · exact hs6 x hx
    · rcases List.mem_cons.mp hx with hx | hx
      · subst hx; decide
      · simp [((plainChar_ne (hsec x hx)).2.2.2.2.2.2.2 : x ≠ '#')]
  have hpairs : queryPairs (secretQuery sec) = [("secret".toList, sec)] :=
    queryPairs_single (by decide) hsec
  have hlabnopct : percentDecode label = some label := by
    apply percentDecode_plain
    intro c hc
    rcases hlab c hc with h | h
    · exact (plainChar_ne h).1
    · subst h; decide
  have hstart : listStartsWith "otpauth://".toList
      (otpURI "totp".toList label (secretQuery sec)) = true :=
    listStartsWith_append _ _
  rw [parseOTPAuth, if_neg (not_not_intro hstart), hpath]
  simp only [List.drop_succ_cons, List.drop_zero, hlabnopct, hquery, hpairs,
    hhost]
  rw [qget_single hpairs,
    qget_single_other hpairs (by decide), qget_single_other hpairs (by decide),
    qget_single_other hpairs (by decide), qget_single_other hpairs (by decide),
    qget_single_other hpairs (by decide)]
  simp [hsecne]
  exact ⟨by decide, by decide⟩

/-- `parseOTPAuth` on a URI with no query string at all: the `secret`
parameter is absent, so parsing throws `Secret not found`. -/
theorem parseOTPAuth_no_secret (label : List Char)
    (hlab : ∀ c ∈ label, plainChar c = true ∨ c = ':') :
    parseOTPAuth ("otpauth://".toList ++ ("totp".toList ++ ('/' :: label))) =
      .error "Secret not found".toList := by
  have hlabpath : ∀ x ∈ label, (!pathEnd x) = true := by
    intro x hx
    rcases hlab x hx with h | h
    · simp [plainChar_not_pathEnd h]
    · subst h; decide
  have hslash : ∀ x ∈ '/' :: label, (!pathEnd x) = true := by
    intro x hx
    rcases List.mem_cons.mp hx with hx | hx
    · subst hx; decide
    · exact hlabpath x hx
  have hA : afterScheme ("otpauth://".toList ++ ("totp".toList ++ ('/' :: label))) =
      "totp".toList ++ ('/' :: label) := afterScheme_append _
  have hafter : afterHost ("otpauth://".toList ++ ("totp".toList ++ ('/' :: label))) =
      '/' :: label := by
    rw [afterHost, hA]
    apply dropWhile_append_stop
    · decide
    · decide
  have hpath : rawPath ("otpauth://".toList ++ ("totp".toList ++ ('/' :: label))) =
      '/' :: label := by
    rw [rawPath, hafter]
    exact takeWhile_all hslash
  have hquery : rawQuery ("otpauth://".toList ++ ("totp".toList ++ ('/' :: label))) =
      [] := by
    rw [rawQuery, hafter, dropWhile_all hslash]
  have hlabnopct : percentDecode label = some label := by
    apply percentDecode_plain
    intro c hc
    rcases hlab c hc with h | h
    · exact (plainChar_ne h).1
    · subst h; decide
  rw [parseOTPAuth, if_neg (not_not_intro (listStartsWith_append _ _)), hpath]
  simp only [List.drop_succ_cons, List.drop_zero, hlabnopct, hquery]
  rfl

/-- C7 counterexample: on `otpauth://totp/alice?secret=ABC` — colon-free
label, no explicit `issuer` parameter — the code returns `issuer =
"alice"` (the whole label, from `params.get("issuer") ||
label.split(":")[0]`), whereas the claim says the issuer is undefined when
neither an explicit parameter nor a colon is present (`specIssuer`, the
definition modelled from the spec's words, yields `none` here). -/
theorem c7_counterexample :
    parseOTPAuth "otpauth://totp/alice?secret=ABC".toList =
      .ok { secret := "ABC".toList, issuer := "alice".toList,
            accountName := "alice".toList, type := "totp".toList,
            algorithm := "sha1".toList, digits := some 6, period := some 30,
            counter := none } ∧
    specIssuer none "alice".toList = none :=
  ⟨rfl, rfl⟩

/-- C7 amended: `parseOTPAuth` fails with `Invalid OTP Auth URL` when the
scheme is not `otpauth://` and with `Secret not found` when the `secret`
parameter is absent; the label is percent-decoded; when the label contains
a colon the portion before the first colon is the issuer fallback and the
portion between the first and second colon is the account name; otherwise
the whole label is both the account name **and** the issuer fallback (the
issuer is never undefined — with no explicit `issuer` parameter and no
colon it is the whole label). -/
theorem c7_parser_contract (u iss acct sec : List Char)
    (hiss : ∀ c ∈ iss, plainChar c = true)
    (hacct : ∀ c ∈ acct, plainChar c = true)
    (hsec : ∀ c ∈ sec, plainChar c = true) (hsecne : sec ≠ []) :
    (listStartsWith "otpauth://".toList u = false →
      parseOTPAuth u = .error "Invalid OTP Auth URL".toList) ∧
    parseOTPAuth ("otpauth://".toList ++ ("totp".toList ++ ('/' :: acct))) =
      .error "Secret not found".toList ∧
    parseOTPAuth (otpURI "totp".toList (iss ++ ':' :: acct) (secretQuery sec)) =
      .ok { secret := sec, issuer := iss, accountName := acct,
            type := "totp".toList, algorithm := "sha1".toList,
            digits := some 6, period := some 30, counter := none } ∧
    parseOTPAuth (otpURI "totp".toList acct (secretQuery sec)) =
      .ok { secret := sec, issuer := acct, accountName := acct,
            type := "totp".toList, algorithm := "sha1".toList,
            digits := some 6, period := some 30, counter := none } := by
  have hissc : ':' ∉ iss := fun hm => (plainChar_ne (hiss _ hm)).2.2.2.2.1 rfl
  have hacctc : ':' ∉ acct := fun hm => (plainChar_ne (hacct _ hm)).2.2.2.2.1 rfl
  refine ⟨fun h => ?_, ?_, ?_, ?_⟩
  · rw [parseOTPAuth, if_pos (by rw [h]; simp)]
  · exact parseOTPAuth_no_secret acct (fun c hc => Or.inl (hacct c hc))
  · have h := parseOTPAuth_query (iss ++ ':' :: acct) sec
      (fun c hc => by
        rcases List.mem_append.mp hc with hc | hc
        · exact Or.inl (hiss c hc)
        · rcases List.mem_cons.mp hc with hc | hc
          · exact Or.inr hc
          · exact Or.inl (hacct c hc))
      hsec hsecne
    rw [h]
    congr 1
    have hsplit : jsSplit ':' (iss ++ ':' :: acct) = iss :: [acct] := by
      rw [jsSplit_append_sep hissc, jsSplit_no_sep hacctc]
    rw [hsplit]
    simp [contains_append_colon]
  · have h := parseOTPAuth_query acct sec
      (fun c hc => Or.inl (hacct c hc)) hsec hsecne
    rw [h]
    have hc : acct.contains ':' = false := contains_colon_false hacct
    congr 1
    rw [jsSplit_no_sep hacctc, hc]
    simp

theorem c7_parser_contract_witness :
    parseOTPAuth "http://x".toList = .error "Invalid OTP Auth URL".toList ∧
    parseOTPAuth ("otpauth://".toList ++ ("totp".toList ++
      ('/' :: "alice".toList))) = .error "Secret not found".toList ∧
    parseOTPAuth (otpURI "totp".toList
        ("Issuer".toList ++ ':' :: "alice".toList)
        (secretQuery "ABC".toList)) =
      .ok { secret := "ABC".toList, issuer := "Issuer".toList,
            accountName := "alice".toList, type := "totp".toList,
            algorithm := "sha1".toList, digits := some 6, period := some 30,
            counter := none } ∧
    parseOTPAuth (otpURI "totp".toList "alice".toList
        (secretQuery "ABC".toList)) =
      .ok { secret := "ABC".toList, issuer := "alice".toList,
            accountName := "alice".toList, type := "totp".toList,
            algorithm := "sha1".toList, digits := some 6, period := some 30,
            counter := none } := by
  have h := c7_parser_contract "http://x".toList "Issuer".toList
    "alice".toList "ABC".toList (by decide) (by decide) (by decide) (by decide)
  exact ⟨h.1 (by decide), h.2.1, h.2.2.1, h.2.2.2⟩

end AuthBackend
